import Mathlib

/-!
# FriendsPomodoro: the room page (`client/src/pages/Room.jsx`)

A shallow embedding of the client logic of the room page: the helpers
`formatTime` and `formatDuration`, the derived flags `timerActive`,
`isPaused`, `isBreak`, the event handlers of the `Room` component and the
tree of controls that `Room` renders, followed by the properties proved of
them.

Conventions of the embedding.
* A React state cell is a field of `Hooks`; an event handler reads the cells
  of the render it was created in and returns an `Outcome`: the commands it
  sent through `actions`, the alerts it raised and the cells after its
  `set...` calls.
* JavaScript strings are Lean strings. Whole numbers are `Nat` or `Int`; where a
  whole number goes through `Math.floor(a / b)` or `toString()` the embedding
  follows binary64 arithmetic.
* `roomState` may be absent (`null` before the first snapshot): `Option`.
-/

namespace FriendsPomodoro

/-! ## Data model -/

/-- The six room modes of the state machine. -/
inductive Mode where
  | idle
  | working
  | paused
  | onBreak
  | breakPaused
  | stopped
  deriving DecidableEq

/-- The string that `roomState.state` carries for a mode. -/
def Mode.str : Mode → String
  | .idle => "idle"
  | .working => "working"
  | .paused => "paused"
  | .onBreak => "break"
  | .breakPaused => "break-paused"
  | .stopped => "stopped"

/-- The methods of the `actions` object of `useRoom`, with their arguments. -/
inductive Command where
  | startWork (duration : Int)
  | startBreak (duration : Int)
  | pause
  | resume
  | reset
  | stop
  | goToIdle
  | updateName (name : String)
  deriving DecidableEq

/-- One entry of `roomState.workSessions`. -/
structure WorkSession where
  duration : Nat
  completedAt : Nat
  deriving DecidableEq

/-- The snapshot `roomState` as far as `Room` reads it. -/
structure RoomState where
  state : String
  timerType : String
  timerRemaining : Nat
  timerDuration : Nat
  workSessions : List WorkSession
  userCount : Nat
  totalWorkTime : Nat
  deriving DecidableEq

/-- The `useState` cells of `Room` that the handlers below read or write. -/
structure Hooks where
  showBreakMode : Bool
  showNameEditor : Bool
  editingName : String
  customWorkTimes : List Int
  customBreakTimes : List Int
  customTimeInput : String
  deriving DecidableEq

/-- What running an event handler does: commands sent, alerts shown, cells afterwards. -/
structure Outcome where
  issued : List Command
  alerts : List String
  ui : Hooks
  deriving DecidableEq

/-! ## String helpers of the JavaScript runtime -/

/-- The method `String.prototype.padStart(targetLength, padString)`. -/
def padStart (s : String) (targetLength : Nat) (padString : String) : String :=
  if targetLength ≤ s.length ∨ padString.data = [] then s
  else
    let fillLen := targetLength - s.length
    ⟨((List.replicate fillLen padString.data).flatten.take fillLen) ++ s.data⟩

/-! ### Whole numbers of the type Number

A whole number that the page handles as a Number is a `Nat` here. Addition of
session durations and the remainder `%` are exact on such numbers;
`Math.floor(a / b)` and `toString()` follow binary64, which matters from
`2 ^ 53` on. -/

/-- The quotient `a / b` rounded to the nearest whole number, a tie going to
the even one. -/
def roundHalfEven (a b : Nat) : Nat :=
  let d := a / b
  let r := a % b
  if 2 * r < b then d
  else if b < 2 * r then d + 1
  else if d % 2 = 0 then d
  else d + 1

/-- The search behind `binaryExponent`, bounded by `fuel` halvings. -/
def binaryExponentAux : Nat → Nat → Nat
  | 0, _ => 0
  | fuel + 1, n => if n < 2 then 0 else binaryExponentAux fuel (n / 2) + 1

/-- The exponent `k` of a whole number `n ≥ 1`: `2 ^ k ≤ n < 2 ^ (k + 1)`. -/
def binaryExponent (n : Nat) : Nat :=
  binaryExponentAux n n

/-- The Number nearest to the whole number `n`: `n` itself below `2 ^ 53`,
otherwise `n` rounded to 53 significant bits, ties to even. -/
def toNumber (n : Nat) : Nat :=
  if n < 2 ^ 53 then n
  else roundHalfEven n (2 ^ (binaryExponent n - 52)) * 2 ^ (binaryExponent n - 52)

/-- The whole number `n` is a value of the type Number: it has at most 53
significant bits and lies below `2 ^ 1024`. -/
def isNumber (n : Nat) : Bool :=
  toNumber n == n && decide (binaryExponent n < 1024)

/-- The expression `Math.floor(a / b)` on whole Numbers `a` and `b`: the quotient
rounded to 53 significant bits, ties to even, and then rounded down. -/
def floorOfQuotient (a b : Nat) : Nat :=
  if a / b = 0 then 0
  else
    let k := binaryExponent (a / b)
    if k ≤ 52 then roundHalfEven (a * 2 ^ (52 - k)) b / 2 ^ (52 - k)
    else roundHalfEven a (b * 2 ^ (k - 52)) * 2 ^ (k - 52)

/-- Of two digit candidates `(s, z)`, standing for `s * 10 ^ z`, the first is
the better one for `x`: it is nearer to `x`, or as near and even. -/
def nearer (x : Nat) (c b : Nat × Nat) : Bool :=
  let dc := if x ≤ c.1 * 10 ^ c.2 then c.1 * 10 ^ c.2 - x else x - c.1 * 10 ^ c.2
  let db := if x ≤ b.1 * 10 ^ b.2 then b.1 * 10 ^ b.2 - x else x - b.1 * 10 ^ b.2
  decide (dc < db) || (decide (dc = db) && decide (c.1 % 2 = 0))

/-- The best of a list of candidates, if there is any. -/
def nearest (x : Nat) : List (Nat × Nat) → Option (Nat × Nat)
  | [] => none
  | c :: rest =>
    match nearest x rest with
    | none => some c
    | some b => if nearer x c b then some c else some b

/-- The candidates with `k` digits for the Number `x` of `d` decimal digits:
the pairs `(s, z)` with `10 ^ (k - 1) ≤ s < 10 ^ k` whose value `s * 10 ^ z`
is a number of `d` or `d + 1` digits that rounds to `x`. -/
def digitCandidates (x d k : Nat) : List (Nat × Nat) :=
  ([(x / 10 ^ (d - k), d - k), (x / 10 ^ (d - k) + 1, d - k),
    (x / 10 ^ (d + 1 - k), d + 1 - k), (x / 10 ^ (d + 1 - k) + 1, d + 1 - k)]).filter
    (fun c => decide (10 ^ (k - 1) ≤ c.1) && decide (c.1 < 10 ^ k) &&
      decide (toNumber (c.1 * 10 ^ c.2) = x))

/-- The digits that `Number::toString` prints for a whole Number `x ≥ 1`: the
pair `(s, z)` with the fewest digits in `s` such that `s * 10 ^ z` rounds to
`x`, the nearest to `x` if several have that few digits. -/
def shortestDigits (x : Nat) : Nat × Nat :=
  let d := (Nat.toDigits 10 x).length
  ((List.range d).findSome? (fun i => nearest x (digitCandidates x d (i + 1)))).getD (x, 0)

/-- The method `Number.prototype.toString()` on a whole Number: plain decimal
digits up to 21 digits, exponent notation beyond. -/
def numberToString (x : Nat) : String :=
  if x = 0 then "0"
  else
    let s := (shortestDigits x).1
    let z := (shortestDigits x).2
    let digits := Nat.toDigits 10 s
    let n := digits.length + z
    if n ≤ 21 then ⟨digits ++ List.replicate z '0'⟩
    else if digits.length = 1 then ⟨digits ++ ['e', '+'] ++ Nat.toDigits 10 (n - 1)⟩
    else ⟨digits.take 1 ++ ['.'] ++ digits.drop 1 ++ ['e', '+'] ++ Nat.toDigits 10 (n - 1)⟩

/-- Format seconds to MM:SS (`formatTime`, Room.jsx lines 8-12); `seconds` is a
whole Number. -/
def formatTime (seconds : Nat) : String :=
  let mins := floorOfQuotient seconds 60
  let secs := seconds % 60
  padStart (numberToString mins) 2 "0" ++ ":" ++ padStart (numberToString secs) 2 "0"

/-- Format duration for stats (`formatDuration`, Room.jsx lines 15-21). -/
def formatDuration (seconds : Nat) : String :=
  if seconds < 60 then numberToString seconds ++ "s"
  else
    let mins := floorOfQuotient seconds 60
    if mins < 60 then numberToString mins ++ "m"
    else
      let hours := floorOfQuotient mins 60
      numberToString hours ++ "h " ++ numberToString (mins % 60) ++ "m"

/-- White space and line terminators of ECMAScript, the characters `trim` strips. -/
def isStrWhiteSpaceChar (c : Char) : Bool :=
  c.toNat ∈ [0x09, 0x0A, 0x0B, 0x0C, 0x0D, 0x20, 0xA0, 0x1680, 0x2028, 0x2029,
    0x202F, 0x205F, 0x3000, 0xFEFF] || (0x2000 ≤ c.toNat && c.toNat ≤ 0x200A)

/-- Strip leading white space (the first step of `parseInt`, and half of `trim`). -/
def trimStart (cs : List Char) : List Char :=
  cs.dropWhile isStrWhiteSpaceChar

/-- Strip trailing white space. -/
def trimEnd (cs : List Char) : List Char :=
  (cs.reverse.dropWhile isStrWhiteSpaceChar).reverse

/-- The method `String.prototype.trim()`. -/
def trim (s : String) : String :=
  ⟨trimEnd (trimStart s.data)⟩

/-- The property `length` of a JavaScript string: its number of UTF-16 code units. -/
def jsLength (s : String) : Nat :=
  (s.data.map (fun c => if c.toNat < 0x10000 then 1 else 2)).sum

/-- Value of a character as a digit of the given radix (10 or 16), if it is one. -/
def digitValue (radix : Nat) (c : Char) : Option Nat :=
  let v :=
    if '0'.toNat ≤ c.toNat ∧ c.toNat ≤ '9'.toNat then some (c.toNat - '0'.toNat)
    else if 'a'.toNat ≤ c.toNat ∧ c.toNat ≤ 'z'.toNat then some (c.toNat - 'a'.toNat + 10)
    else if 'A'.toNat ≤ c.toNat ∧ c.toNat ≤ 'Z'.toNat then some (c.toNat - 'A'.toNat + 10)
    else none
  v.bind (fun d => if d < radix then some d else none)

/-- The digits of `parseInt`: the longest run of radix digits at the front of
`cs` and its value; `none` when the run is empty. -/
def parseDigits (radix : Nat) (cs : List Char) : Option Nat :=
  let z := cs.takeWhile (fun c => (digitValue radix c).isSome)
  if z = [] then none
  else some (z.foldl (fun acc c => acc * radix + (digitValue radix c).getD 0) 0)

/-- The part of `parseInt` after the sign: a leading `0x` or `0X` selects
radix 16, otherwise the radix is 10. -/
def parseUnsigned (cs : List Char) : Option Nat :=
  match cs with
  | '0' :: 'x' :: rest => parseDigits 16 rest
  | '0' :: 'X' :: rest => parseDigits 16 rest
  | _ => parseDigits 10 cs

/-- The part of `parseInt` after the leading white space: an optional sign,
then the unsigned number. -/
def parseSigned (cs : List Char) : Option Int :=
  match cs with
  | '-' :: rest => (parseUnsigned rest).map (fun n => -(n : Int))
  | '+' :: rest => (parseUnsigned rest).map (fun n => (n : Int))
  | _ => (parseUnsigned cs).map (fun n => (n : Int))

/-- The global `parseInt(string)` called without a radix; `none` is `NaN`.
The result is the exact integer: the call sites only compare it with 0, 30
and 55 and store it when it lies in 1..55, where the rounding of a
JavaScript number changes nothing. -/
def parseInt (s : String) : Option Int :=
  parseSigned (trimStart s.data)

/-- The call `[...xs, x].sort((a, b) => a - b)`: numeric ascending sort. -/
def sortAscending (xs : List Int) : List Int :=
  xs.insertionSort (fun a b => a ≤ b)

/-! ## Derived flags (Room.jsx lines 36-50) -/

/-- The memo `timerActive`. -/
def timerActive (roomState : Option RoomState) : Bool :=
  match roomState with
  | none => false
  | some rs => ["working", "paused", "break", "break-paused"].contains rs.state

/-- The memo `isPaused`. -/
def isPaused (roomState : Option RoomState) : Bool :=
  match roomState with
  | none => false
  | some rs => ["paused", "break-paused"].contains rs.state

/-- The memo `isBreak`. -/
def isBreak (roomState : Option RoomState) : Bool :=
  match roomState with
  | none => false
  | some rs => ["break", "break-paused"].contains rs.state

/-! ## Event handlers (Room.jsx lines 112-170) -/

/-- Handle custom time addition (`handleAddCustomTime`, lines 113-143). -/
def handleAddCustomTime (ui : Hooks) : Outcome :=
  let inputValue := trim ui.customTimeInput
  if inputValue = "" then ⟨[], [], ui⟩
  else
    match parseInt inputValue with
    | none => ⟨[], ["Lütfen geçerli bir sayı girin (1 ve üzeri)"], ui⟩
    | some minutes =>
      if minutes ≤ 0 then ⟨[], ["Lütfen geçerli bir sayı girin (1 ve üzeri)"], ui⟩
      else
        let maxTime : Int := if ui.showBreakMode then 30 else 55
        if minutes > maxTime then
          ⟨[], [(if ui.showBreakMode then "Mola" else "Çalışma") ++ " için maksimum "
            ++ toString maxTime ++ " dakika ekleyebilirsiniz."], ui⟩
        else if ui.showBreakMode then
          if ¬ ui.customBreakTimes.contains minutes then
            ⟨[], [], { ui with
              customBreakTimes := sortAscending (ui.customBreakTimes ++ [minutes]),
              customTimeInput := "" }⟩
          else ⟨[], ["Bu süre zaten eklenmiş!"], { ui with customTimeInput := "" }⟩
        else
          if ¬ ui.customWorkTimes.contains minutes then
            ⟨[], [], { ui with
              customWorkTimes := sortAscending (ui.customWorkTimes ++ [minutes]),
              customTimeInput := "" }⟩
          else ⟨[], ["Bu süre zaten eklenmiş!"], { ui with customTimeInput := "" }⟩

/-- Remove custom time (`handleRemoveCustomTime`, lines 146-152). -/
def handleRemoveCustomTime (ui : Hooks) (minutes : Int) : Outcome :=
  if ui.showBreakMode then
    ⟨[], [], { ui with customBreakTimes := ui.customBreakTimes.filter (fun t => t ≠ minutes) }⟩
  else
    ⟨[], [], { ui with customWorkTimes := ui.customWorkTimes.filter (fun t => t ≠ minutes) }⟩

/-- Handle time selection from physics world (`handleTimeSelect`, lines 155-162). -/
def handleTimeSelect (ui : Hooks) (duration : Int) : Outcome :=
  if ui.showBreakMode then
    ⟨[Command.startBreak duration], [], { ui with showBreakMode := false }⟩
  else
    ⟨[Command.startWork duration], [], ui⟩

/-- Handle name save (`handleNameSave`, lines 165-170). -/
def handleNameSave (ui : Hooks) : Outcome :=
  let issued :=
    if trim ui.editingName ≠ "" then [Command.updateName (trim ui.editingName)] else []
  ⟨issued, [], { ui with showNameEditor := false }⟩

/-! ## What `Room` renders (Room.jsx lines 172-711)

Only the parts that carry an event handler or show timer data are kept; the
invite and settings modals, which touch neither `actions` nor the cells of
`Hooks`, are left out. A control is recorded with the outcome of activating
it in the render that produced it. -/

/-- A clickable element together with what its handler does. -/
structure Button where
  label : String
  onClick : Outcome
  deriving DecidableEq

/-- The props handed to the `PhysicsWorld` component (lines 337-347). -/
structure PhysicsWorldProps where
  type : String
  onSelect : Int → Outcome
  timerActive : Bool
  timerRemaining : Nat
  timerDuration : Nat
  customTimes : List Int

/-- The main return of `Room` (lines 232-711), one field per conditional block. -/
structure RoomView where
  customTimeEntry : List Button
  headerTitle : Button
  timerOverlay : Option (String × String)
  physicsWorld : Option PhysicsWorldProps
  activeTimerView : Option String
  controlsBar : List Button
  roomStats : Nat × String
  modeToggle : List Button
  customTimeChips : List Button
  nameEditor : List Button

/-- The three returns of `Room`. -/
inductive View where
  | loading
  | summary (title : String) (stat : String) (buttons : List Button)
  | room (v : RoomView)

/-- The header block for adding a custom time (lines 255-309): the Enter key of
the input, and the `+ Ekle` button unless it is disabled. -/
def customTimeEntry (roomState : Option RoomState) (state : String) (ui : Hooks) : List Button :=
  if ¬ timerActive roomState ∧ state = "idle" then
    [⟨"Enter", handleAddCustomTime ui⟩] ++
      (if ui.customTimeInput = "" ||
          (match parseInt ui.customTimeInput with
            | some n => decide (n ≤ 0)
            | none => false)
        then [] else [⟨"+ Ekle", handleAddCustomTime ui⟩])
  else []

/-- The controls bar (lines 391-409). -/
def controlsBar (roomState : Option RoomState) (ui : Hooks) : List Button :=
  if timerActive roomState then
    [ (if isPaused roomState then ⟨"Devam", ⟨[Command.resume], [], ui⟩⟩
        else ⟨"Durdur", ⟨[Command.pause], [], ui⟩⟩),
      ⟨"Sıfırla", ⟨[Command.reset], [], ui⟩⟩,
      ⟨"Bitir", ⟨[if isBreak roomState then Command.goToIdle else Command.stop], [], ui⟩⟩ ]
  else []

/-- The mode toggle (lines 424-439). -/
def modeToggle (roomState : Option RoomState) (state : String) (ui : Hooks) : List Button :=
  if ¬ timerActive roomState ∧ state = "idle" then
    [ ⟨"Çalışma", ⟨[], [], { ui with showBreakMode := false }⟩⟩,
      ⟨"Mola", ⟨[], [], { ui with showBreakMode := true }⟩⟩ ]
  else []

/-- The chips of the custom times with their remove buttons (lines 442-481). -/
def customTimeChips (roomState : Option RoomState) (state : String) (ui : Hooks) : List Button :=
  if ¬ timerActive roomState ∧ state = "idle" then
    if (ui.showBreakMode ∧ ui.customBreakTimes.length > 0) ∨
        (¬ ui.showBreakMode ∧ ui.customWorkTimes.length > 0) then
      (if ui.showBreakMode then ui.customBreakTimes else ui.customWorkTimes).map
        (fun minutes => ⟨"×", handleRemoveCustomTime ui minutes⟩)
    else []
  else []

/-- The name editor modal (lines 486-515): overlay, cancel and save. -/
def nameEditor (ui : Hooks) : List Button :=
  if ui.showNameEditor then
    [ ⟨"overlay", ⟨[], [], { ui with showNameEditor := false }⟩⟩,
      ⟨"İptal", ⟨[], [], { ui with showNameEditor := false }⟩⟩,
      ⟨"Kaydet", handleNameSave ui⟩ ]
  else []

/-- The total of line 186: `workSessions.reduce((sum, s) => sum + s.duration, 0)`. -/
def totalWorkTime (workSessions : List WorkSession) : Nat :=
  workSessions.foldl (fun sum s => sum + s.duration) 0

/-- The session summary (lines 185-230), for a room state whose mode is `stopped`. -/
def summary (rs : RoomState) (ui : Hooks) : View :=
  let totalWorkTime := totalWorkTime rs.workSessions
  let wasBreak : Bool := rs.timerType = "break"
  View.summary
    (if wasBreak then "Mola tamamlandı! 😊" else "Harika çalışma! 🎉")
    (formatDuration totalWorkTime)
    ((if ¬ wasBreak then
        [⟨"Mola Al", ⟨[Command.goToIdle], [], { ui with showBreakMode := true }⟩⟩]
      else []) ++
      [⟨"Devam Et", ⟨[Command.goToIdle], [], { ui with showBreakMode := false }⟩⟩])

/-- The component `Room`: `userName` stands for `currentUser?.userName || getUserName()`. -/
def Room (connected : Bool) (roomState : Option RoomState) (ui : Hooks) (userName : String) :
    View :=
  match roomState with
  | none => View.loading
  | some rs =>
    if ¬ connected then View.loading
    else if rs.state = "stopped" then summary rs ui
    else
      View.room
        { customTimeEntry := customTimeEntry roomState rs.state ui
          headerTitle :=
            ⟨"header-title", ⟨[], [], { ui with editingName := userName, showNameEditor := true }⟩⟩
          timerOverlay :=
            if timerActive roomState then
              some (formatTime rs.timerRemaining, if isBreak roomState then "Mola" else "Odaklanma")
            else none
          physicsWorld :=
            if ¬ timerActive roomState then
              some
                { type := if ui.showBreakMode then "break" else "work"
                  onSelect := handleTimeSelect ui
                  timerActive := timerActive roomState
                  timerRemaining := rs.timerRemaining
                  timerDuration := rs.timerDuration
                  customTimes := if ui.showBreakMode then ui.customBreakTimes else ui.customWorkTimes }
            else none
          activeTimerView := if timerActive roomState then some (formatTime rs.timerRemaining) else none
          controlsBar := controlsBar roomState ui
          roomStats := (rs.userCount, formatDuration rs.totalWorkTime)
          modeToggle := modeToggle roomState rs.state ui
          customTimeChips := customTimeChips roomState rs.state ui
          nameEditor := nameEditor ui }

/-! ## What a rendered view offers -/

/-- Every clickable element of a view. -/
def View.buttons : View → List Button
  | .loading => []
  | .summary _ _ buttons => buttons
  | .room v =>
    v.customTimeEntry ++ [v.headerTitle] ++ v.controlsBar ++ v.modeToggle ++ v.customTimeChips ++
      v.nameEditor

/-- The selection callback of the time-selection world, when that is rendered. -/
def View.onSelect : View → Option (Int → Outcome)
  | .room v => v.physicsWorld.map (fun w => w.onSelect)
  | _ => none

/-- The view offers command `c`: some control of it, or some selection in the
time-selection world, issues `c`. -/
def View.offers (v : View) (c : Command) : Prop :=
  (∃ b ∈ v.buttons, c ∈ b.onClick.issued) ∨
    (∃ f d, v.onSelect = some f ∧ c ∈ (f d).issued)

/-- The session summary is what is rendered. -/
def View.isSummary : View → Bool
  | .summary _ _ _ => true
  | _ => false

/-- The time-selection world is rendered. -/
def View.isSelection : View → Bool
  | .room v => v.physicsWorld.isSome
  | _ => false

/-- The countdown with its controls bar is rendered. -/
def View.isCountdown : View → Bool
  | .room v => v.timerOverlay.isSome && v.activeTimerView.isSome && !v.controlsBar.isEmpty
  | _ => false

/-- A room state whose mode is `m`, all other fields arbitrary. -/
def RoomState.hasMode (rs : RoomState) (m : Mode) : Prop :=
  rs.state = m.str

/-! ## The shape of a formatted time -/

/-- The form `MM:SS` for `s` seconds: two decimal digits whose value is
`s / 60`, a colon, two decimal digits whose value is `s % 60`. -/
def IsMMSS (s : Nat) (out : String) : Prop :=
  ∃ m1 m0 c1 c0 : Nat, m1 < 10 ∧ m0 < 10 ∧ c1 < 10 ∧ c0 < 10 ∧
    out = String.mk
      [Nat.digitChar m1, Nat.digitChar m0, ':', Nat.digitChar c1, Nat.digitChar c0] ∧
    10 * m1 + m0 = s / 60 ∧ 10 * c1 + c0 = s % 60

/-! ## Sample data for the worked instances -/

/-- Two completed work sessions, of 5 and of 25 minutes. -/
def exampleSessions : List WorkSession :=
  [⟨300, 1000⟩, ⟨1500, 3000⟩]

/-- A room in mode `m` with a 25 minute countdown, of the break type in the two
break modes and of the work type otherwise, and two sessions on record. -/
def exampleRoom (m : Mode) : RoomState :=
  { state := m.str
    timerType := if m = .onBreak ∨ m = .breakPaused then "break" else "work"
    timerRemaining := 1490
    timerDuration := 1500
    workSessions := exampleSessions
    userCount := 2
    totalWorkTime := 1800 }

/-- The cells of `Room` right after mounting (the initial values of lines 26-33). -/
def exampleHooks : Hooks :=
  { showBreakMode := false
    showNameEditor := false
    editingName := ""
    customWorkTimes := []
    customBreakTimes := []
    customTimeInput := "" }

/-- A display name of 21 characters. -/
def longName : String :=
  "aaaaaaaaaaaaaaaaaaaaa"

/-- Modelled from the spec: the guard table of section 4.1 for the two
commands `pause` and `resume`; the engine that applies it is not part of the
client sources. -/
def specGuardAccepts (m : Mode) (c : Command) : Bool :=
  match m, c with
  | .working, .pause => true
  | .onBreak, .pause => true
  | .paused, .resume => true
  | .breakPaused, .resume => true
  | _, _ => false

/-! ## Sequences of calls on the custom-times lists -/

/-- One event that touches the cells the two custom-time handlers read or write. -/
inductive CustomStep where
  /-- The `onChange` of the custom-time input (line 269): `setCustomTimeInput(text)`. -/
  | typeInput (text : String)
  /-- Any `setShowBreakMode(b)`: the mode toggle (lines 429 and 435), the summary
  buttons (lines 210 and 220), a break selection (line 158). -/
  | setBreakMode (b : Bool)
  /-- A call of `handleAddCustomTime`. -/
  | add
  /-- A call of `handleRemoveCustomTime(minutes)`. -/
  | remove (minutes : Int)
  deriving DecidableEq

/-- The cells after one event. -/
def CustomStep.run (ui : Hooks) : CustomStep → Hooks
  | .typeInput text => { ui with customTimeInput := text }
  | .setBreakMode b => { ui with showBreakMode := b }
  | .add => (handleAddCustomTime ui).ui
  | .remove minutes => (handleRemoveCustomTime ui minutes).ui

/-- The cells after a sequence of events, each handler running on the cells
its predecessor left. -/
def runSteps (ui : Hooks) (steps : List CustomStep) : Hooks :=
  steps.foldl CustomStep.run ui

/-- The list is strictly ascending and all its elements lie in `1..limit`. -/
def AscendingWithin (limit : Int) (xs : List Int) : Prop :=
  xs.Sorted (fun a b => a < b) ∧ ∀ x ∈ xs, 1 ≤ x ∧ x ≤ limit

/-- A sequence of events used in the worked instance: 25 and 5 are added to the
work list, 40 is refused in break mode where 10 is added, 25 is removed again. -/
def exampleSteps : List CustomStep :=
  [ .typeInput "25", .add, .typeInput "5", .add, .setBreakMode true, .typeInput "40", .add,
    .typeInput "10", .add, .setBreakMode false, .remove 25 ]

/-! ## Reading a formatted time back -/

/-- The value of a character as a decimal digit. -/
def decimalDigit (c : Char) : Nat :=
  c.toNat - '0'.toNat

/-- The character is one of `0`..`9`. -/
def isDecimalDigit (c : Char) : Bool :=
  decide ('0'.toNat ≤ c.toNat) && decide (c.toNat ≤ '9'.toNat)

/-- The number a run of decimal digits denotes. -/
def decimalValue (cs : List Char) : Nat :=
  cs.foldl (fun acc c => acc * 10 + decimalDigit c) 0

/-- The text before the first colon: the minutes field of a formatted time. -/
def minutesField (out : String) : List Char :=
  out.data.takeWhile (fun c => c ≠ ':')

/-- The text after the first colon: the seconds field of a formatted time. -/
def secondsField (out : String) : List Char :=
  (out.data.dropWhile (fun c => c ≠ ':')).drop 1

/-- The seconds a formatted time stands for. -/
def decodeTime (out : String) : Nat :=
  60 * decimalValue (minutesField out) + decimalValue (secondsField out)

/-- The text of the timer display (lines 326-328), when it is rendered. -/
def View.timerText : View → Option String
  | .room v => v.timerOverlay.map (fun p => p.1)
  | _ => none

/-! ## A text that is a whole number -/

/-- The number written by a run of characters that is one or more decimal
digits and nothing else; `none` for every other run. -/
def wholeDigits (ds : List Char) : Option Nat :=
  if ds ≠ [] ∧ ds.all isDecimalDigit = true then some (decimalValue ds) else none

/-- The whole number a text is: surrounding white space apart, an optional
sign followed by one or more decimal digits and nothing else. `none` for
every other text, such as `12abc`, `2.5` or `1e3`. -/
def wholeNumber (text : String) : Option Int :=
  match (trim text).data with
  | '-' :: ds => (wholeDigits ds).map (fun n => -(n : Int))
  | '+' :: ds => (wholeDigits ds).map (fun n => (n : Int))
  | ds => (wholeDigits ds).map (fun n => (n : Int))

/-! ## Helper lemmas: the flags as functions of the mode -/

theorem timerActive_hasMode (rs : RoomState) (m : Mode) (h : rs.hasMode m) :
    timerActive (some rs) =
      decide (m = .working ∨ m = .paused ∨ m = .onBreak ∨ m = .breakPaused) := by
  unfold RoomState.hasMode at h
  cases m <;> simp [timerActive, h, Mode.str]

theorem isPaused_hasMode (rs : RoomState) (m : Mode) (h : rs.hasMode m) :
    isPaused (some rs) = decide (m = .paused ∨ m = .breakPaused) := by
  unfold RoomState.hasMode at h
  cases m <;> simp [isPaused, h, Mode.str]

theorem isBreak_hasMode (rs : RoomState) (m : Mode) (h : rs.hasMode m) :
    isBreak (some rs) = decide (m = .onBreak ∨ m = .breakPaused) := by
  unfold RoomState.hasMode at h
  cases m <;> simp [isBreak, h, Mode.str]

theorem state_eq_stopped_hasMode (rs : RoomState) (m : Mode) (h : rs.hasMode m) :
    (rs.state = "stopped") ↔ m = .stopped := by
  unfold RoomState.hasMode at h
  cases m <;> simp [h, Mode.str]

theorem state_eq_idle_hasMode (rs : RoomState) (m : Mode) (h : rs.hasMode m) :
    (rs.state = "idle") ↔ m = .idle := by
  unfold RoomState.hasMode at h
  cases m <;> simp [h, Mode.str]


/-! ## Helper lemmas: the commands each handler and each block issues -/

theorem handleAddCustomTime_issued (ui : Hooks) : (handleAddCustomTime ui).issued = [] := by
  unfold handleAddCustomTime
  simp only
  repeat' split
  all_goals rfl

theorem handleRemoveCustomTime_issued (ui : Hooks) (minutes : Int) :
    (handleRemoveCustomTime ui minutes).issued = [] := by
  unfold handleRemoveCustomTime
  split <;> rfl

theorem handleNameSave_issued (ui : Hooks) :
    (handleNameSave ui).issued =
      if trim ui.editingName ≠ "" then [Command.updateName (trim ui.editingName)]
      else [] := rfl

theorem handleTimeSelect_issued (ui : Hooks) (duration : Int) :
    (handleTimeSelect ui duration).issued =
      [if ui.showBreakMode then Command.startBreak duration else Command.startWork duration] := by
  unfold handleTimeSelect
  split <;> simp_all

theorem customTimeEntry_commands (roomState : Option RoomState) (state : String) (ui : Hooks) :
    (customTimeEntry roomState state ui).flatMap (fun b => b.onClick.issued) = [] := by
  unfold customTimeEntry
  split
  · split <;> simp [handleAddCustomTime_issued]
  · rfl

theorem modeToggle_commands (roomState : Option RoomState) (state : String) (ui : Hooks) :
    (modeToggle roomState state ui).flatMap (fun b => b.onClick.issued) = [] := by
  unfold modeToggle
  split <;> rfl

theorem customTimeChips_commands (roomState : Option RoomState) (state : String) (ui : Hooks) :
    (customTimeChips roomState state ui).flatMap (fun b => b.onClick.issued) = [] := by
  unfold customTimeChips
  split
  · split
    · simp [List.flatMap_map, handleRemoveCustomTime_issued]
    · rfl
  · rfl

theorem nameEditor_commands (ui : Hooks) :
    (nameEditor ui).flatMap (fun b => b.onClick.issued) =
      if ui.showNameEditor then (handleNameSave ui).issued else [] := by
  unfold nameEditor
  split <;> simp

theorem controlsBar_commands (roomState : Option RoomState) (ui : Hooks) :
    (controlsBar roomState ui).flatMap (fun b => b.onClick.issued) =
      if timerActive roomState then
        [if isPaused roomState then Command.resume else Command.pause, Command.reset,
          if isBreak roomState then Command.goToIdle else Command.stop]
      else [] := by
  unfold controlsBar
  split
  · split <;> simp
  · rfl

/-- The commands issued by the controls of the main view. -/
theorem room_commands (rs : RoomState) (ui : Hooks) (userName : String)
    (hs : rs.state ≠ "stopped") :
    (Room true (some rs) ui userName).buttons.flatMap (fun b => b.onClick.issued) =
      (if timerActive (some rs) then
        [if isPaused (some rs) then Command.resume else Command.pause, Command.reset,
          if isBreak (some rs) then Command.goToIdle else Command.stop]
      else []) ++ (if ui.showNameEditor then (handleNameSave ui).issued else []) := by
  simp [Room, hs, View.buttons, List.flatMap_append]
  rw [customTimeEntry_commands, modeToggle_commands, customTimeChips_commands,
    nameEditor_commands, controlsBar_commands]
  simp

/-- The commands issued by the controls of the session summary. -/
theorem summary_commands (rs : RoomState) (ui : Hooks) (userName : String)
    (hs : rs.state = "stopped") :
    (Room true (some rs) ui userName).buttons.flatMap (fun b => b.onClick.issued) =
      if rs.timerType = "break" then [Command.goToIdle]
      else [Command.goToIdle, Command.goToIdle] := by
  simp only [Room, hs, summary, View.buttons]
  by_cases hb : rs.timerType = "break" <;> simp [hb]

/-- The selection callback of the rendered view. -/
theorem room_onSelect (rs : RoomState) (ui : Hooks) (userName : String) :
    (Room true (some rs) ui userName).onSelect =
      if rs.state ≠ "stopped" ∧ timerActive (some rs) = false then some (handleTimeSelect ui)
      else none := by
  unfold Room
  by_cases hs : rs.state = "stopped"
  · simp [hs, summary, View.onSelect]
  · cases hA : timerActive (some rs) <;> simp [hs, hA, View.onSelect]


/-- The commands that the controls of a view issue, control by control. -/
theorem offers_iff (v : View) (c : Command) :
    v.offers c ↔
      c ∈ v.buttons.flatMap (fun b => b.onClick.issued) ∨
        ∃ f d, v.onSelect = some f ∧ c ∈ (f d).issued := by
  unfold View.offers
  simp only [List.mem_flatMap]


/-! ## Helper lemmas: which view is rendered -/

theorem room_isSummary (rs : RoomState) (ui : Hooks) (userName : String) :
    (Room true (some rs) ui userName).isSummary = decide (rs.state = "stopped") := by
  by_cases hs : rs.state = "stopped" <;> simp [Room, hs, summary, View.isSummary]

theorem room_isSelection (rs : RoomState) (ui : Hooks) (userName : String) :
    (Room true (some rs) ui userName).isSelection =
      (!decide (rs.state = "stopped") && !timerActive (some rs)) := by
  by_cases hs : rs.state = "stopped"
  · simp [Room, hs, summary, View.isSelection]
  · cases hA : timerActive (some rs) <;> simp [Room, hs, hA, View.isSelection]

theorem room_isCountdown (rs : RoomState) (ui : Hooks) (userName : String) :
    (Room true (some rs) ui userName).isCountdown =
      (!decide (rs.state = "stopped") && timerActive (some rs)) := by
  by_cases hs : rs.state = "stopped"
  · simp [Room, hs, summary, View.isCountdown]
  · cases hA : timerActive (some rs) <;> simp [Room, hs, hA, View.isCountdown, controlsBar]

theorem room_controlsBar (rs : RoomState) (ui : Hooks) (userName : String)
    (hs : rs.state ≠ "stopped") :
    ∃ v, Room true (some rs) ui userName = View.room v ∧
      v.controlsBar = controlsBar (some rs) ui := by
  simp [Room, hs]


/-- What the session summary offers: `goToIdle` and nothing else. -/
theorem offers_summary_iff (rs : RoomState) (ui : Hooks) (userName : String) (c : Command)
    (hs : rs.state = "stopped") :
    (Room true (some rs) ui userName).offers c ↔ c = Command.goToIdle := by
  rw [offers_iff, summary_commands rs ui userName hs, room_onSelect]
  by_cases hb : rs.timerType = "break" <;> simp [hs, hb]

/-- What the main view offers: the three controls of the controls bar while a
countdown runs, the save of the name editor while it is open, and a start
command for each selectable duration while no countdown runs. -/
theorem offers_room_iff (rs : RoomState) (ui : Hooks) (userName : String) (c : Command)
    (hs : rs.state ≠ "stopped") :
    (Room true (some rs) ui userName).offers c ↔
      (timerActive (some rs) = true ∧
        (c = (if isPaused (some rs) then Command.resume else Command.pause) ∨
          c = Command.reset ∨
          c = (if isBreak (some rs) then Command.goToIdle else Command.stop))) ∨
      (ui.showNameEditor = true ∧ trim ui.editingName ≠ "" ∧
        c = Command.updateName (trim ui.editingName)) ∨
      (timerActive (some rs) = false ∧
        ∃ d, c = (if ui.showBreakMode then Command.startBreak d else Command.startWork d)) := by
  rw [offers_iff, room_commands rs ui userName hs, room_onSelect]
  cases hA : timerActive (some rs) <;> cases hE : ui.showNameEditor <;>
    by_cases ht : trim ui.editingName = "" <;>
    simp [hs, ht, handleNameSave_issued, handleTimeSelect_issued, or_assoc]


/-! ## `parseInt` ignores the white space that `trim` removes -/

theorem digitValue_whiteSpace (radix : Nat) (c : Char) (h : isStrWhiteSpaceChar c = true) :
    digitValue radix c = none := by
  unfold isStrWhiteSpaceChar at h
  unfold digitValue
  simp only [Bool.or_eq_true, decide_eq_true_eq, Bool.and_eq_true, List.mem_cons,
    List.mem_singleton, List.not_mem_nil, or_false] at h
  have h0 : '0'.toNat = 48 := rfl
  have h9 : '9'.toNat = 57 := rfl
  have ha : 'a'.toNat = 97 := rfl
  have hz : 'z'.toNat = 122 := rfl
  have hA : 'A'.toNat = 65 := rfl
  have hZ : 'Z'.toNat = 90 := rfl
  rw [h0, h9, ha, hz, hA, hZ]
  have e1 : ¬ (48 ≤ c.toNat ∧ c.toNat ≤ 57) := by omega
  have e2 : ¬ (97 ≤ c.toNat ∧ c.toNat ≤ 122) := by omega
  have e3 : ¬ (65 ≤ c.toNat ∧ c.toNat ≤ 90) := by omega
  simp [e1, e2, e3]

theorem takeWhile_append_of_head (p : Char → Bool) (q w : List Char)
    (hw : ∀ c ∈ w.head?, p c = false) :
    (q ++ w).takeWhile p = q.takeWhile p := by
  induction q with
  | nil =>
    cases w with
    | nil => rfl
    | cons c rest => simp [List.takeWhile_cons, hw c (by simp)]
  | cons a rest ih =>
    simp only [List.cons_append, List.takeWhile_cons, ih]

theorem parseDigits_append (radix : Nat) (q w : List Char)
    (hw : ∀ c ∈ w.head?, isStrWhiteSpaceChar c = true) :
    parseDigits radix (q ++ w) = parseDigits radix q := by
  unfold parseDigits
  rw [takeWhile_append_of_head _ q w
    (fun c hc => by simp [digitValue_whiteSpace radix c (hw c hc)])]


theorem whiteSpace_ne (c : Char) (h : isStrWhiteSpaceChar c = true) :
    c ≠ '0' ∧ c ≠ 'x' ∧ c ≠ 'X' ∧ c ≠ '-' ∧ c ≠ '+' := by
  refine ⟨?_, ?_, ?_, ?_, ?_⟩ <;> (rintro rfl; revert h; decide)

theorem parseUnsigned_append (q w : List Char)
    (hw : ∀ c ∈ w.head?, isStrWhiteSpaceChar c = true) :
    parseUnsigned (q ++ w) = parseUnsigned q := by
  have key := parseDigits_append 10 q w hw
  rcases q with _ | ⟨a, _ | ⟨b, rest⟩⟩
  · rcases w with _ | ⟨c, w'⟩
    · rfl
    · have hc := whiteSpace_ne c (hw c (by simp))
      simp only [List.nil_append] at key ⊢
      unfold parseUnsigned
      split
      · simp_all
      · simp_all
      · exact key
  · rcases w with _ | ⟨c, w'⟩
    · rfl
    · have hc := whiteSpace_ne c (hw c (by simp))
      unfold parseUnsigned
      split
      · simp_all
      · simp_all
      · split
        · simp_all
        · simp_all
        · exact key
  · unfold parseUnsigned
    split
    · rename_i heq
      simp only [List.cons_append, List.cons.injEq] at heq
      obtain ⟨rfl, rfl, rfl⟩ := heq
      exact parseDigits_append 16 rest w hw
    · rename_i heq
      simp only [List.cons_append, List.cons.injEq] at heq
      obtain ⟨rfl, rfl, rfl⟩ := heq
      exact parseDigits_append 16 rest w hw
    · rename_i h1 h2
      split
      · rename_i heq
        simp only [List.cons.injEq] at heq
        exact absurd (by simp [heq.1, heq.2.1]) (h1 (rest ++ w))
      · rename_i heq
        simp only [List.cons.injEq] at heq
        exact absurd (by simp [heq.1, heq.2.1]) (h2 (rest ++ w))
      · exact key


theorem parseSigned_append (q w : List Char)
    (hw : ∀ c ∈ w.head?, isStrWhiteSpaceChar c = true) :
    parseSigned (q ++ w) = parseSigned q := by
  rcases q with _ | ⟨a, rest⟩
  · rcases w with _ | ⟨c, w'⟩
    · rfl
    · have hc := whiteSpace_ne c (hw c (by simp))
      have key := parseUnsigned_append [] (c :: w') hw
      simp only [List.nil_append] at key ⊢
      unfold parseSigned
      split
      · simp_all
      · simp_all
      · simp [key]
  · unfold parseSigned
    split
    · rename_i heq
      simp only [List.cons_append, List.cons.injEq] at heq
      obtain ⟨rfl, rfl⟩ := heq
      simp [parseUnsigned_append rest w hw]
    · rename_i heq
      simp only [List.cons_append, List.cons.injEq] at heq
      obtain ⟨rfl, rfl⟩ := heq
      simp [parseUnsigned_append rest w hw]
    · rename_i h1 h2
      split
      · rename_i heq
        simp only [List.cons.injEq] at heq
        exact absurd (by simp [heq.1]) (h1 (rest ++ w))
      · rename_i heq
        simp only [List.cons.injEq] at heq
        exact absurd (by simp [heq.1]) (h2 (rest ++ w))
      · rw [parseUnsigned_append (a :: rest) w hw]

theorem trimEnd_append (l : List Char) :
    ∃ w, l = trimEnd l ++ w ∧ ∀ c ∈ w, isStrWhiteSpaceChar c = true := by
  refine ⟨(l.reverse.takeWhile isStrWhiteSpaceChar).reverse, ?_, ?_⟩
  · unfold trimEnd
    rw [← List.reverse_append, List.takeWhile_append_dropWhile, List.reverse_reverse]
  · intro c hc
    exact List.mem_takeWhile_imp (List.mem_reverse.mp hc)

theorem trimStart_trimEnd_trimStart (l : List Char) :
    trimStart (trimEnd (trimStart l)) = trimEnd (trimStart l) := by
  cases h : trimEnd (trimStart l) with
  | nil => rfl
  | cons a rest =>
    obtain ⟨w, hw, _⟩ := trimEnd_append (trimStart l)
    rw [h] at hw
    have ha : isStrWhiteSpaceChar a = false := by
      have := List.head_dropWhile_not isStrWhiteSpaceChar l
        (by unfold trimStart at hw; rw [hw]; simp)
      unfold trimStart at hw
      simp only [hw, List.cons_append, List.head_cons] at this
      simpa using this
    simp [trimStart, List.dropWhile_cons, ha]

/-- Parsing the trimmed text is parsing the text. -/
theorem parseInt_trim (s : String) : parseInt (trim s) = parseInt s := by
  unfold parseInt trim
  simp only
  rw [trimStart_trimEnd_trimStart]
  obtain ⟨w, hw, hws⟩ := trimEnd_append (trimStart s.data)
  conv_rhs => rw [hw]
  exact (parseSigned_append _ w (fun c hc => hws c (List.mem_of_mem_head? hc))).symm

/-! ## The controls of the countdown and the choice of the view -/

/-- C1: in each of the four modes that show the countdown controls, the view is
the main one, its only `Bitir` control issues `goToIdle` in `break` and
`break-paused` and `stop` in `working` and `paused`, and in `break` and
`break-paused` no control of the view issues `stop`. -/
theorem finish_control_by_mode (m : Mode) (rs : RoomState) (ui : Hooks) (userName : String)
    (hm : rs.hasMode m)
    (hc : m = .working ∨ m = .paused ∨ m = .onBreak ∨ m = .breakPaused) :
    ∃ v, Room true (some rs) ui userName = View.room v ∧
      (View.room v).buttons.filter (fun b => decide (b.label = "Bitir")) =
        [⟨"Bitir",
          ⟨[if m = .onBreak ∨ m = .breakPaused then Command.goToIdle else Command.stop], [], ui⟩⟩] ∧
      ((m = .working ∨ m = .paused) → (View.room v).offers Command.stop) ∧
      ((m = .onBreak ∨ m = .breakPaused) → ¬ (View.room v).offers Command.stop) := by
  have hA := timerActive_hasMode rs m hm
  have hP := isPaused_hasMode rs m hm
  have hB := isBreak_hasMode rs m hm
  have hS := state_eq_stopped_hasMode rs m hm
  have hI := state_eq_idle_hasMode rs m hm
  rcases hc with rfl | rfl | rfl | rfl <;>
    simp [Room, hA, hP, hB, hS, hI, View.buttons, offers_iff, View.onSelect, controlsBar,
      customTimeEntry, modeToggle, customTimeChips, nameEditor, handleNameSave] <;>
    cases ui.showNameEditor <;> simp

/-- C2: with the client connected and a room state whose mode is `m`, the view
offers `pause` exactly in `working` and `break` and `resume` exactly in
`paused` and `break-paused`, never both, neither of them in `idle` or
`stopped`, and whatever it offers of the two the guard table accepts. -/
theorem pause_resume_offered_by_mode (m : Mode) (rs : RoomState) (ui : Hooks)
    (userName : String) (hm : rs.hasMode m) :
    ((Room true (some rs) ui userName).offers Command.pause ↔ (m = .working ∨ m = .onBreak)) ∧
    ((Room true (some rs) ui userName).offers Command.resume ↔
      (m = .paused ∨ m = .breakPaused)) ∧
    ¬ ((Room true (some rs) ui userName).offers Command.pause ∧
        (Room true (some rs) ui userName).offers Command.resume) ∧
    ((m = .idle ∨ m = .stopped) →
      ¬ (Room true (some rs) ui userName).offers Command.pause ∧
        ¬ (Room true (some rs) ui userName).offers Command.resume) ∧
    ((Room true (some rs) ui userName).offers Command.pause →
      specGuardAccepts m Command.pause = true) ∧
    ((Room true (some rs) ui userName).offers Command.resume →
      specGuardAccepts m Command.resume = true) := by
  have hA := timerActive_hasMode rs m hm
  have hP := isPaused_hasMode rs m hm
  have hB := isBreak_hasMode rs m hm
  have hS := state_eq_stopped_hasMode rs m hm
  by_cases hs : rs.state = "stopped"
  · have hm' : m = .stopped := hS.mp hs
    subst hm'
    simp [offers_summary_iff rs ui userName _ hs, specGuardAccepts]
  · have hm' : m ≠ .stopped := fun h => hs (hS.mpr h)
    cases m <;>
      simp [offers_room_iff rs ui userName _ hs, hA, hP, hB, specGuardAccepts] at hm' ⊢
    all_goals cases ui.showBreakMode <;> simp

/-- C3: with the client connected and a room state whose mode is `m`, exactly
one of the three views is rendered and the mode alone decides which: the
summary in `stopped`, the time-selection world in `idle`, the countdown with
its controls (pause or resume, reset, finish) in the four countdown modes.
`startWork` and `startBreak` are offered only in `idle`, `reset` never in
`idle` or `stopped`. -/
theorem view_by_mode (m : Mode) (rs : RoomState) (ui : Hooks) (userName : String)
    (hm : rs.hasMode m) :
    ((Room true (some rs) ui userName).isSummary = true ↔ m = .stopped) ∧
    ((Room true (some rs) ui userName).isSelection = true ↔ m = .idle) ∧
    ((Room true (some rs) ui userName).isCountdown = true ↔
      (m = .working ∨ m = .paused ∨ m = .onBreak ∨ m = .breakPaused)) ∧
    [(Room true (some rs) ui userName).isSummary, (Room true (some rs) ui userName).isSelection,
      (Room true (some rs) ui userName).isCountdown].count true = 1 ∧
    ((Room true (some rs) ui userName).isCountdown = true →
      ∃ v, Room true (some rs) ui userName = View.room v ∧
        v.controlsBar.map (fun b => b.onClick.issued) =
          [[if m = .paused ∨ m = .breakPaused then Command.resume else Command.pause],
            [Command.reset],
            [if m = .onBreak ∨ m = .breakPaused then Command.goToIdle else Command.stop]]) ∧
    (∀ d, (Room true (some rs) ui userName).offers (Command.startWork d) ∨
        (Room true (some rs) ui userName).offers (Command.startBreak d) → m = .idle) ∧
    (m = .idle → ∀ d, (Room true (some rs) ui userName).offers
        (if ui.showBreakMode then Command.startBreak d else Command.startWork d)) ∧
    ((m = .idle ∨ m = .stopped) → ¬ (Room true (some rs) ui userName).offers Command.reset) := by
  have hA := timerActive_hasMode rs m hm
  have hP := isPaused_hasMode rs m hm
  have hB := isBreak_hasMode rs m hm
  have hS := state_eq_stopped_hasMode rs m hm
  have h1 := room_isSummary rs ui userName
  have h2 := room_isSelection rs ui userName
  have h3 := room_isCountdown rs ui userName
  by_cases hs : rs.state = "stopped"
  · have hm' : m = .stopped := hS.mp hs
    subst hm'
    simp [offers_summary_iff rs ui userName _ hs, hs, h1, h2, h3]
  · have hm' : m ≠ .stopped := fun h => hs (hS.mpr h)
    obtain ⟨v, hv, hbar⟩ := room_controlsBar rs ui userName hs
    refine ⟨?_, ?_, ?_, ?_, ?_, ?_, ?_, ?_⟩
    · simpa [h1, hs] using fun h => hm' h
    · cases m <;> simp [h2, hs, hA] at hm' ⊢
    · cases m <;> simp [h3, hs, hA] at hm' ⊢
    · cases m <;> simp [h1, h2, h3, hs, hA] at hm' ⊢
    · intro hcd
      refine ⟨v, hv, ?_⟩
      cases m <;> simp [h3, hs, hbar, controlsBar, hA, hP, hB] at hcd hm' ⊢
    · intro d
      cases m <;>
        simp [offers_room_iff rs ui userName _ hs, hA, hP, hB] at hm' ⊢
    · rintro rfl d
      rw [offers_room_iff rs ui userName _ hs]
      exact Or.inr (Or.inr ⟨by simp [hA], d, rfl⟩)
    · rintro (rfl | rfl)
      · simp [offers_room_iff rs ui userName _ hs, hA]
        cases ui.showBreakMode <;> simp
      · exact absurd rfl hm'


/-- Witness of C1: a room on a break; `Bitir` abandons the break through `goToIdle`. -/
theorem finish_control_by_mode_witness :
    (exampleRoom Mode.onBreak).hasMode Mode.onBreak ∧
    ∃ v, Room true (some (exampleRoom Mode.onBreak)) exampleHooks "Ada" = View.room v ∧
      (View.room v).buttons.filter (fun b => decide (b.label = "Bitir")) =
        [⟨"Bitir",
          ⟨[if Mode.onBreak = Mode.onBreak ∨ Mode.onBreak = Mode.breakPaused then Command.goToIdle
            else Command.stop], [], exampleHooks⟩⟩] ∧
      ((Mode.onBreak = Mode.working ∨ Mode.onBreak = Mode.paused) →
        (View.room v).offers Command.stop) ∧
      ((Mode.onBreak = Mode.onBreak ∨ Mode.onBreak = Mode.breakPaused) →
        ¬ (View.room v).offers Command.stop) :=
  ⟨rfl, finish_control_by_mode Mode.onBreak (exampleRoom Mode.onBreak) exampleHooks "Ada" rfl
    (Or.inr (Or.inr (Or.inl rfl)))⟩

/-- Witness of C2: a working room offers `pause` and does not offer `resume`. -/
theorem pause_resume_offered_by_mode_witness :
    (exampleRoom Mode.working).hasMode Mode.working ∧
    (Room true (some (exampleRoom Mode.working)) exampleHooks "Ada").offers Command.pause ∧
    ¬ (Room true (some (exampleRoom Mode.working)) exampleHooks "Ada").offers Command.resume :=
  ⟨rfl,
    (pause_resume_offered_by_mode Mode.working (exampleRoom Mode.working) exampleHooks "Ada"
      rfl).1.mpr (Or.inl rfl),
    fun h => by
      have h2 := (pause_resume_offered_by_mode Mode.working (exampleRoom Mode.working)
        exampleHooks "Ada" rfl).2.1.mp h
      revert h2
      decide⟩

/-- Witness of C3: an idle room renders the time-selection world and nothing else. -/
theorem view_by_mode_witness :
    (exampleRoom Mode.idle).hasMode Mode.idle ∧
    (Room true (some (exampleRoom Mode.idle)) exampleHooks "Ada").isSelection = true ∧
    [(Room true (some (exampleRoom Mode.idle)) exampleHooks "Ada").isSummary,
      (Room true (some (exampleRoom Mode.idle)) exampleHooks "Ada").isSelection,
      (Room true (some (exampleRoom Mode.idle)) exampleHooks "Ada").isCountdown].count true = 1 :=
  ⟨rfl,
    (view_by_mode Mode.idle (exampleRoom Mode.idle) exampleHooks "Ada" rfl).2.1.mpr rfl,
    (view_by_mode Mode.idle (exampleRoom Mode.idle) exampleHooks "Ada" rfl).2.2.2.1⟩


/-! ## Total work time of the summary -/

theorem foldl_duration (ws : List WorkSession) (acc : Nat) :
    ws.foldl (fun sum s => sum + s.duration) acc = acc + (ws.map (fun s => s.duration)).sum := by
  induction ws generalizing acc with
  | nil => simp
  | cons s rest ih => simp [ih, Nat.add_assoc]

theorem totalWorkTime_eq_sum (ws : List WorkSession) :
    totalWorkTime ws = (ws.map (fun s => s.duration)).sum := by
  simp [totalWorkTime, foldl_duration]

/-- C4: the total the summary computes is the sum of `duration` over the work
sessions: 0 for no session, larger by exactly `d` after a session of
duration `d` is appended, the same for every reordering of the sessions; and
it is this total, formatted, that the summary shows. -/
theorem summary_totalWorkTime (ws : List WorkSession) :
    totalWorkTime ws = (ws.map (fun s => s.duration)).sum ∧
    totalWorkTime [] = 0 ∧
    (∀ s, totalWorkTime (ws ++ [s]) = totalWorkTime ws + s.duration) ∧
    (∀ ws', ws.Perm ws' → totalWorkTime ws' = totalWorkTime ws) ∧
    (∀ (rs : RoomState) (ui : Hooks) (userName : String),
      rs.state = "stopped" → rs.workSessions = ws →
        ∃ title buttons, Room true (some rs) ui userName =
          View.summary title (formatDuration ((ws.map (fun s => s.duration)).sum)) buttons) := by
  refine ⟨totalWorkTime_eq_sum ws, rfl, ?_, ?_, ?_⟩
  · intro s
    simp [totalWorkTime_eq_sum]
  · intro ws' hp
    rw [totalWorkTime_eq_sum, totalWorkTime_eq_sum]
    exact ((hp.map _).sum_eq).symm
  · intro rs ui userName hs hw
    simp [Room, hs, summary, hw, totalWorkTime_eq_sum]

/-- Witness of C4: two sessions of 300 s and 1500 s in a stopped room. -/
theorem summary_totalWorkTime_witness :
    totalWorkTime exampleSessions = 1800 ∧
    totalWorkTime exampleSessions.reverse = totalWorkTime exampleSessions ∧
    ∃ title buttons, Room true (some (exampleRoom Mode.stopped)) exampleHooks "Ada" =
      View.summary title (formatDuration 1800) buttons :=
  ⟨(summary_totalWorkTime exampleSessions).1,
    (summary_totalWorkTime exampleSessions).2.2.2.1 _ (List.reverse_perm _).symm,
    (summary_totalWorkTime exampleSessions).2.2.2.2 (exampleRoom Mode.stopped) exampleHooks "Ada"
      rfl rfl⟩


/-! ## Adding a custom time -/

theorem wholeDigits_parseUnsigned (ds : List Char) (n : Nat) (h : wholeDigits ds = some n) :
    parseUnsigned ds = some n := by
  unfold wholeDigits at h
  split at h
  · rename_i hds
    obtain ⟨hne, hall⟩ := hds
    rw [List.all_eq_true] at hall
    have hdv : ∀ c ∈ ds, digitValue 10 c = some (decimalDigit c) := by
      intro c hc
      have hd := hall c hc
      unfold isDecimalDigit at hd
      simp only [Bool.and_eq_true, decide_eq_true_eq] at hd
      unfold digitValue decimalDigit
      have h0 : '0'.toNat = 48 := rfl
      have h9 : '9'.toNat = 57 := rfl
      rw [h0, h9] at hd
      simp only [h0, h9, hd.1, hd.2, and_self, if_true, Option.some_bind]
      rw [if_pos (by omega)]
    have hx : ∀ c ∈ ds, c ≠ 'x' ∧ c ≠ 'X' := by
      intro c hc
      have hd := hall c hc
      constructor <;> (rintro rfl; revert hd; decide)
    have hpd : parseDigits 10 ds = some n := by
      unfold parseDigits
      have htw : ds.takeWhile (fun c => (digitValue 10 c).isSome) = ds := by
        rw [List.takeWhile_eq_self_iff]
        intro c hc
        simp [hdv c hc]
      simp only [htw, hne, if_false]
      have hfold : ∀ (l : List Char) (acc : Nat), (∀ c ∈ l, c ∈ ds) →
          l.foldl (fun acc c => acc * 10 + (digitValue 10 c).getD 0) acc =
            l.foldl (fun acc c => acc * 10 + decimalDigit c) acc := by
        intro l
        induction l with
        | nil => intro acc _; rfl
        | cons a rest ih =>
          intro acc hsub
          simp only [List.foldl_cons, hdv a (hsub a (by simp)), Option.getD_some]
          exact ih _ (fun c hc => hsub c (List.mem_cons_of_mem _ hc))
      rw [hfold ds 0 (fun c hc => hc)]
      simpa [decimalValue] using h
    unfold parseUnsigned
    split
    · rename_i rest
      exact absurd rfl (hx 'x' (by simp)).1
    · rename_i rest
      exact absurd rfl (hx 'X' (by simp)).2
    · exact hpd
  · exact absurd h (by simp)

theorem wholeNumber_parseInt (text : String) (m : Int) (h : wholeNumber text = some m) :
    parseInt (trim text) = some m := by
  have hdata : trimStart (trim text).data = (trim text).data :=
    trimStart_trimEnd_trimStart text.data
  unfold parseInt
  rw [hdata]
  unfold wholeNumber at h
  unfold parseSigned
  split at h
  · rename_i ds heq
    cases hw : wholeDigits ds with
    | none => simp [hw] at h
    | some n => simpa [hw, wholeDigits_parseUnsigned ds n hw] using h
  · rename_i ds heq
    cases hw : wholeDigits ds with
    | none => simp [hw] at h
    | some n => simpa [hw, wholeDigits_parseUnsigned ds n hw] using h
  · rename_i ds h1 h2
    cases hw : wholeDigits (trim text).data with
    | none => simp [hw] at h
    | some n => simpa [hw, wholeDigits_parseUnsigned _ n hw] using h

/-- C5, as amended: `handleAddCustomTime` changes a custom-times list only when
`parseInt` of the text (trimmed or not, it reads the same), the integer that
JavaScript reads from the start of the text while ignoring what follows it,
is a number `m` with `1 ≤ m` and `m ≤ 55` in work mode or `m ≤ 30` in break
mode, and then inserts `m` into the list of the active mode and leaves the
other list alone. A text that is empty or blank, that starts with no
integer, or whose leading integer is non-positive or over the limit leaves
every cell (both lists and the input text) unchanged. A text in range whose
value is not yet in the active list is added. For a text that is exactly a
whole number, `parseInt` is that number. -/
theorem handleAddCustomTime_validates (ui : Hooks) :
    parseInt (trim ui.customTimeInput) = parseInt ui.customTimeInput ∧
    (∀ m : Int, wholeNumber ui.customTimeInput = some m →
      parseInt (trim ui.customTimeInput) = some m) ∧
    (((handleAddCustomTime ui).ui.customWorkTimes = ui.customWorkTimes ∧
        (handleAddCustomTime ui).ui.customBreakTimes = ui.customBreakTimes) ∨
      ∃ m : Int, parseInt (trim ui.customTimeInput) = some m ∧ 1 ≤ m ∧
        m ≤ (if ui.showBreakMode then 30 else 55) ∧
        (handleAddCustomTime ui).ui =
          if ui.showBreakMode then
            { ui with customBreakTimes := sortAscending (ui.customBreakTimes ++ [m]),
                      customTimeInput := "" }
          else
            { ui with customWorkTimes := sortAscending (ui.customWorkTimes ++ [m]),
                      customTimeInput := "" }) ∧
    ((trim ui.customTimeInput = "" ∨
        ∀ m : Int, parseInt (trim ui.customTimeInput) = some m →
          m ≤ 0 ∨ (if ui.showBreakMode then 30 else 55) < m) →
      (handleAddCustomTime ui).ui = ui) ∧
    (∀ m : Int, trim ui.customTimeInput ≠ "" → parseInt (trim ui.customTimeInput) = some m →
      1 ≤ m → m ≤ (if ui.showBreakMode then 30 else 55) →
      m ∉ (if ui.showBreakMode then ui.customBreakTimes else ui.customWorkTimes) →
      (handleAddCustomTime ui).ui =
        if ui.showBreakMode then
          { ui with customBreakTimes := sortAscending (ui.customBreakTimes ++ [m]),
                    customTimeInput := "" }
        else
          { ui with customWorkTimes := sortAscending (ui.customWorkTimes ++ [m]),
                    customTimeInput := "" }) := by
  refine ⟨parseInt_trim _, wholeNumber_parseInt _, ?_⟩
  unfold handleAddCustomTime
  by_cases he : trim ui.customTimeInput = ""
  · simp [he]
  · cases hp : parseInt (trim ui.customTimeInput) with
    | none => simp [he, hp]
    | some n =>
      by_cases h0 : n ≤ 0
      · simp [he, hp, h0]
        omega
      · cases hb : ui.showBreakMode
        · by_cases hmax : n > 55
          · simp [he, hp, h0, hmax]
          · by_cases hin : n ∈ ui.customWorkTimes
            · simp [he, hp, h0, hmax, hin]
            · simp [he, hp, h0, hmax, hin]
              omega
        · by_cases hmax : n > 30
          · simp [he, hp, h0, hmax]
          · by_cases hin : n ∈ ui.customBreakTimes
            · simp [he, hp, h0, hmax, hin]
            · simp [he, hp, h0, hmax, hin]
              omega


/-- Witness of C5 as amended: in work mode `"60"` is over the limit and changes nothing,
`" 25 "` is added; in break mode `"abc"` is rejected. -/
theorem handleAddCustomTime_validates_witness :
    (handleAddCustomTime { exampleHooks with customTimeInput := "60" }).ui =
      { exampleHooks with customTimeInput := "60" } ∧
    (handleAddCustomTime { exampleHooks with customTimeInput := "abc", showBreakMode := true }).ui =
      { exampleHooks with customTimeInput := "abc", showBreakMode := true } ∧
    (handleAddCustomTime { exampleHooks with customTimeInput := " 25 ", customWorkTimes := [30] }).ui =
      { exampleHooks with customTimeInput := "", customWorkTimes := [25, 30] } :=
  ⟨(handleAddCustomTime_validates { exampleHooks with customTimeInput := "60" }).2.2.2.1
      (Or.inr (by decide)),
    (handleAddCustomTime_validates
      { exampleHooks with customTimeInput := "abc", showBreakMode := true }).2.2.2.1
      (Or.inr (by decide)),
    (handleAddCustomTime_validates
      { exampleHooks with customTimeInput := " 25 ", customWorkTimes := [30] }).2.2.2.2 25
      (by decide) (by decide) (by decide) (by decide) (by decide)⟩

/-- C5 as stated fails: the texts `12abc`, `2.5` and `1e3` are not whole numbers
of minutes (the last is 1000 in a number field, over either limit), yet in
work mode `handleAddCustomTime` accepts them and adds 12, 2 and 1. -/
theorem handleAddCustomTime_adds_for_non_whole :
    wholeNumber "12abc" = none ∧
    (handleAddCustomTime { exampleHooks with customTimeInput := "12abc" }).ui.customWorkTimes =
      [12] ∧
    wholeNumber "2.5" = none ∧
    (handleAddCustomTime { exampleHooks with customTimeInput := "2.5" }).ui.customWorkTimes =
      [2] ∧
    wholeNumber "1e3" = none ∧
    (handleAddCustomTime { exampleHooks with customTimeInput := "1e3" }).ui.customWorkTimes =
      [1] ∧
    ¬ (∀ ui : Hooks, (handleAddCustomTime ui).ui.customWorkTimes ≠ ui.customWorkTimes →
        ∃ m : Int, wholeNumber ui.customTimeInput = some m ∧ 1 ≤ m ∧ m ≤ 55) := by
  refine ⟨by decide, by decide, by decide, by decide, by decide, by decide, ?_⟩
  intro h
  obtain ⟨m, hm, _⟩ := h { exampleHooks with customTimeInput := "12abc" } (by decide)
  have hnone : wholeNumber "12abc" = none := by decide
  exact absurd (hnone ▸ hm) (by simp)

/-! ## Saving the name -/

/-- C6: `handleNameSave` issues `updateName` if and only if the trimmed edited
name is non-empty; what it issues is then that one command with exactly the
trimmed name, so never the empty name; and in both cases the editor is closed
and no other cell changes. -/
theorem handleNameSave_issues_trimmed (ui : Hooks) :
    ((∃ name, Command.updateName name ∈ (handleNameSave ui).issued) ↔
      trim ui.editingName ≠ "") ∧
    (trim ui.editingName ≠ "" →
      (handleNameSave ui).issued = [Command.updateName (trim ui.editingName)]) ∧
    (trim ui.editingName = "" → (handleNameSave ui).issued = []) ∧
    Command.updateName "" ∉ (handleNameSave ui).issued ∧
    (handleNameSave ui).ui = { ui with showNameEditor := false } := by
  by_cases ht : trim ui.editingName = ""
  · simp [handleNameSave, ht]
  · refine ⟨?_, ?_, ?_, ?_, rfl⟩
    · simp [handleNameSave, ht]
    · simp [handleNameSave, ht]
    · simp [handleNameSave, ht]
    · simp only [handleNameSave_issued, ht, ne_eq, not_false_eq_true, if_true,
        List.mem_singleton, Command.updateName.injEq]
      exact fun h => ht h.symm

/-- Witness of C6: the edited name `"  Ada "` is sent as `"Ada"`; a blank one is not sent. -/
theorem handleNameSave_issues_trimmed_witness :
    trim "  Ada " ≠ "" ∧
    (handleNameSave { exampleHooks with showNameEditor := true, editingName := "  Ada " }).issued =
      [Command.updateName (trim "  Ada ")] ∧
    trim "  Ada " = "Ada" ∧
    trim "   " = "" ∧
    (handleNameSave { exampleHooks with showNameEditor := true, editingName := "   " }).issued = [] :=
  ⟨by decide,
    (handleNameSave_issues_trimmed
      { exampleHooks with showNameEditor := true, editingName := "  Ada " }).2.1 (by decide),
    by decide, by decide,
    (handleNameSave_issues_trimmed
      { exampleHooks with showNameEditor := true, editingName := "   " }).2.2.1 (by decide)⟩


/-! ## Length of the name that is sent -/

theorem sum_map_dropWhile_le (f : Char → Nat) (p : Char → Bool) (l : List Char) :
    ((l.dropWhile p).map f).sum ≤ (l.map f).sum := by
  induction l with
  | nil => simp
  | cons c rest ih =>
    simp only [List.dropWhile_cons]
    split
    · simp only [List.map_cons, List.sum_cons]
      omega
    · exact Nat.le_refl _

theorem jsLength_trim_le (s : String) : jsLength (trim s) ≤ jsLength s := by
  unfold jsLength trim trimEnd trimStart
  simp only [List.map_reverse, List.sum_reverse]
  exact Nat.le_trans (sum_map_dropWhile_le _ _ _)
    (by simpa [List.map_reverse, List.sum_reverse] using sum_map_dropWhile_le _ _ s.data)

/-- C7, as amended: the name `handleNameSave` sends is never longer than the
edited name, so it has at most 20 characters whenever the edited name has at
most 20, the bound that `maxLength` puts on text typed into the editor;
`handleNameSave` itself checks no length. -/
theorem handleNameSave_name_length (ui : Hooks) (name : String)
    (h : Command.updateName name ∈ (handleNameSave ui).issued) :
    name = trim ui.editingName ∧
    jsLength name ≤ jsLength ui.editingName ∧
    (jsLength ui.editingName ≤ 20 → jsLength name ≤ 20) := by
  have hn : name = trim ui.editingName := by
    rw [handleNameSave_issued] at h
    split at h <;> simp_all
  subst hn
  exact ⟨rfl, jsLength_trim_le _, fun h20 => Nat.le_trans (jsLength_trim_le _) h20⟩

/-- Witness of C7 as amended: the typed name `"  Ada "` is sent as `"Ada"`. -/
theorem handleNameSave_name_length_witness :
    Command.updateName "Ada" ∈
      (handleNameSave { exampleHooks with showNameEditor := true, editingName := "  Ada " }).issued ∧
    jsLength "Ada" ≤ jsLength "  Ada " ∧
    (jsLength "  Ada " ≤ 20 → jsLength "Ada" ≤ 20) :=
  ⟨by decide,
    (handleNameSave_name_length
      { exampleHooks with showNameEditor := true, editingName := "  Ada " } "Ada"
      (by decide)).2⟩

/-- C7 as stated fails: opening the editor on a current name of 21 characters
and saving it unchanged sends all 21 characters. -/
theorem updateName_longer_than_20 :
    (∃ v, Room true (some (exampleRoom Mode.idle)) exampleHooks longName = View.room v ∧
      v.headerTitle.onClick.ui =
        { exampleHooks with editingName := longName, showNameEditor := true }) ∧
    (handleNameSave
      { exampleHooks with editingName := longName, showNameEditor := true }).issued =
      [Command.updateName longName] ∧
    jsLength longName = 21 ∧
    ¬ (∀ (ui : Hooks) (name : String),
        Command.updateName name ∈ (handleNameSave ui).issued → jsLength name ≤ 20) := by
  refine ⟨⟨_, rfl, rfl⟩, by decide, by decide, ?_⟩
  intro h
  have := h { exampleHooks with editingName := longName, showNameEditor := true } longName
    (by decide)
  revert this
  decide


/-! ## Whole Numbers below `2 ^ 53` are handled exactly -/

theorem binaryExponentAux_spec (fuel n : Nat) (hf : n ≤ fuel) (hn : n ≠ 0) :
    2 ^ binaryExponentAux fuel n ≤ n ∧ n < 2 ^ (binaryExponentAux fuel n + 1) := by
  induction fuel generalizing n with
  | zero => omega
  | succ fuel ih =>
    unfold binaryExponentAux
    split
    · simp only [Nat.pow_zero, Nat.zero_add, Nat.pow_one]
      omega
    · have h2 := ih (n / 2) (by omega) (by omega)
      simp only [Nat.pow_succ] at h2 ⊢
      omega

theorem binaryExponent_spec (n : Nat) (hn : n ≠ 0) :
    2 ^ binaryExponent n ≤ n ∧ n < 2 ^ (binaryExponent n + 1) :=
  binaryExponentAux_spec n n (Nat.le_refl n) hn

theorem le_roundHalfEven (a b : Nat) : a / b ≤ roundHalfEven a b := by
  unfold roundHalfEven
  simp only
  split
  · exact Nat.le_refl _
  · split
    · omega
    · split <;> omega

theorem toNumber_eq_safe (v x : Nat) (hx : x < 2 ^ 53) (h : toNumber v = x) : v = x := by
  unfold toNumber at h
  split at h
  · exact h
  · rename_i hv
    exfalso
    have hv0 : v ≠ 0 := by
      intro h0
      rw [h0] at hv
      exact hv (by decide)
    obtain ⟨hlo, hhi⟩ := binaryExponent_spec v hv0
    have hk : 53 ≤ binaryExponent v := by
      by_contra hk
      have hk2 : binaryExponent v + 1 ≤ 53 := by omega
      have := Nat.pow_le_pow_right (by decide : 1 ≤ 2) hk2
      omega
    have hsplit : 2 ^ binaryExponent v = 2 ^ 52 * 2 ^ (binaryExponent v - 52) := by
      rw [← Nat.pow_add]
      congr 1
      omega
    have hpos : 0 < 2 ^ (binaryExponent v - 52) := Nat.pow_pos (by decide)
    have hdiv : 2 ^ 52 ≤ v / 2 ^ (binaryExponent v - 52) := by
      rw [Nat.le_div_iff_mul_le hpos]
      omega
    have hr := le_roundHalfEven v (2 ^ (binaryExponent v - 52))
    have hmul : 2 ^ 52 * 2 ^ (binaryExponent v - 52) ≤
        roundHalfEven v (2 ^ (binaryExponent v - 52)) * 2 ^ (binaryExponent v - 52) :=
      Nat.mul_le_mul_right _ (Nat.le_trans hdiv hr)
    have h53 : 2 ^ 53 ≤ 2 ^ binaryExponent v := Nat.pow_le_pow_right (by decide) hk
    omega

theorem floorOfQuotient_safe (a : Nat) (ha : a < 2 ^ 53) : floorOfQuotient a 60 = a / 60 := by
  unfold floorOfQuotient
  split
  · rename_i h0
    exact h0.symm
  · rename_i h0
    obtain ⟨hlo, _⟩ := binaryExponent_spec (a / 60) h0
    simp only
    have hk : binaryExponent (a / 60) ≤ 47 := by
      by_contra hk
      have hk2 : 48 ≤ binaryExponent (a / 60) := by omega
      have h48 := Nat.pow_le_pow_right (by decide : 1 ≤ 2) hk2
      have h53 : (2 : Nat) ^ 53 = 9007199254740992 := by norm_num
      have h48v : (2 : Nat) ^ 48 = 281474976710656 := by norm_num
      omega
    rw [if_pos (by omega)]
    have ht : 5 ≤ 52 - binaryExponent (a / 60) := by omega
    generalize 52 - binaryExponent (a / 60) = t at ht
    have hP : 32 ≤ 2 ^ t := by
      have := Nat.pow_le_pow_right (by decide : 1 ≤ 2) ht
      simpa using this
    generalize 2 ^ t = P at hP
    have hN : a * P = 60 * (a / 60 * P) + a % 60 * P := by
      have := Nat.div_add_mod a 60
      calc a * P = (60 * (a / 60) + a % 60) * P := by rw [this]
        _ = 60 * (a / 60 * P) + a % 60 * P := by ring
    have hy : a % 60 * P ≤ 59 * P := Nat.mul_le_mul_right _ (by omega)
    have hbound : a / 60 * P ≤ roundHalfEven (a * P) 60 ∧
        roundHalfEven (a * P) 60 < a / 60 * P + P := by
      generalize a / 60 * P = A at hN
      generalize a % 60 * P = y at hN hy
      generalize a * P = N at hN
      unfold roundHalfEven
      simp only
      subst hN
      split
      · omega
      · split
        · omega
        · split <;> omega
    apply Nat.div_eq_of_lt_le
    · exact hbound.1
    · rw [Nat.succ_mul]
      exact hbound.2


theorem toDigitsCore_append (fuel n : Nat) (ds : List Char) :
    Nat.toDigitsCore 10 fuel n ds = Nat.toDigitsCore 10 fuel n [] ++ ds := by
  induction fuel generalizing n ds with
  | zero => simp [Nat.toDigitsCore]
  | succ fuel ih =>
    unfold Nat.toDigitsCore
    simp only
    split
    · simp
    · rw [ih (n / 10) (Nat.digitChar (n % 10) :: ds), ih (n / 10) [Nat.digitChar (n % 10)]]
      simp

theorem toDigitsCore_fuel (fuel1 fuel2 n : Nat) (ds : List Char) (h1 : n < fuel1)
    (h2 : n < fuel2) :
    Nat.toDigitsCore 10 fuel1 n ds = Nat.toDigitsCore 10 fuel2 n ds := by
  induction fuel1 generalizing fuel2 n ds with
  | zero => omega
  | succ fuel1 ih =>
    cases fuel2 with
    | zero => omega
    | succ fuel2 =>
      unfold Nat.toDigitsCore
      simp only
      split
      · rfl
      · exact ih fuel2 (n / 10) _ (by omega) (by omega)

theorem toDigits_mul_ten (m : Nat) (hm : m ≠ 0) :
    Nat.toDigits 10 (m * 10) = Nat.toDigits 10 m ++ ['0'] := by
  unfold Nat.toDigits
  rw [show m * 10 + 1 = (m * 10) + 1 from rfl]
  conv_lhs => unfold Nat.toDigitsCore
  have h1 : m * 10 % 10 = 0 := by omega
  have h2 : m * 10 / 10 = m := by omega
  simp only [h1, h2, hm, if_false]
  rw [toDigitsCore_append, toDigitsCore_fuel (m * 10) (m + 1) m [] (by omega) (by omega)]
  rfl

theorem toDigits_mul_pow_ten (s z : Nat) (hs : s ≠ 0) :
    Nat.toDigits 10 (s * 10 ^ z) = Nat.toDigits 10 s ++ List.replicate z '0' := by
  induction z with
  | zero => simp
  | succ z ih =>
    have hne : s * 10 ^ z ≠ 0 := Nat.mul_ne_zero hs (by positivity)
    rw [Nat.pow_succ, ← Nat.mul_assoc, toDigits_mul_ten _ hne, ih, List.append_assoc,
      List.replicate_succ']

theorem nearest_mem (x : Nat) (l : List (Nat × Nat)) (c : Nat × Nat)
    (h : nearest x l = some c) : c ∈ l := by
  induction l generalizing c with
  | nil => simp [nearest] at h
  | cons a rest ih =>
    unfold nearest at h
    split at h
    · simp only [Option.some.injEq] at h
      simp [h]
    · rename_i b hb
      split at h
      · simp only [Option.some.injEq] at h
        simp [h]
      · simp only [Option.some.injEq] at h
        exact List.mem_cons_of_mem _ (h ▸ ih b hb)

theorem shortestDigits_safe (x : Nat) (hx : x < 2 ^ 53) :
    (shortestDigits x).1 * 10 ^ (shortestDigits x).2 = x := by
  unfold shortestDigits
  simp only
  cases hfind : (List.range (Nat.toDigits 10 x).length).findSome?
      (fun i => nearest x (digitCandidates x (Nat.toDigits 10 x).length (i + 1))) with
  | none => simp
  | some c =>
    obtain ⟨i, _, hi⟩ := List.exists_of_findSome?_eq_some hfind
    have hmem := nearest_mem x _ c hi
    unfold digitCandidates at hmem
    rw [List.mem_filter] at hmem
    have hval := hmem.2
    simp only [Bool.and_eq_true, decide_eq_true_eq] at hval
    simpa using toNumber_eq_safe _ x hx hval.2

theorem numberToString_safe (x : Nat) (hx : x < 2 ^ 53) : numberToString x = toString x := by
  unfold numberToString
  split
  · rename_i h0
    rw [h0]
    rfl
  · rename_i h0
    have hsz := shortestDigits_safe x hx
    have hs : (shortestDigits x).1 ≠ 0 := by
      intro hs0
      rw [hs0, Nat.zero_mul] at hsz
      exact h0 hsz.symm
    have hdig := toDigits_mul_pow_ten _ (shortestDigits x).2 hs
    rw [hsz] at hdig
    have hlen : (Nat.toDigits 10 x).length ≤ 21 := by
      have := Nat.repr_length x 21 (by decide) (by
        have h53 : (2 : Nat) ^ 53 = 9007199254740992 := by norm_num
        have h21 : (10 : Nat) ^ 21 = 1000000000000000000000 := by norm_num
        omega)
      simpa [Nat.repr] using this
    have hn : (Nat.toDigits 10 (shortestDigits x).1).length + (shortestDigits x).2 ≤ 21 := by
      have := congrArg List.length hdig
      simp only [List.length_append, List.length_replicate] at this
      omega
    simp only [hn, if_true]
    rw [← hdig]
    rfl

theorem formatTime_safe (s : Nat) (hs : s < 2 ^ 53) :
    formatTime s =
      padStart (toString (s / 60)) 2 "0" ++ ":" ++ padStart (toString (s % 60)) 2 "0" := by
  have h53 : (2 : Nat) ^ 53 = 9007199254740992 := by norm_num
  unfold formatTime
  simp only
  rw [floorOfQuotient_safe s hs, numberToString_safe (s / 60) (by omega),
    numberToString_safe (s % 60) (by omega)]

/-! ## Whole Numbers up to the first quotient by 60 that rounds up -/

theorem binaryExponent_eq (n j : Nat) (h1 : 2 ^ j ≤ n) (h2 : n < 2 ^ (j + 1)) :
    binaryExponent n = j := by
  have hn : n ≠ 0 := by
    have := Nat.pow_pos (n := j) (by decide : 0 < 2)
    omega
  obtain ⟨hlo, hhi⟩ := binaryExponent_spec n hn
  by_contra hne
  rcases Nat.lt_or_gt_of_ne hne with hlt | hgt
  · have := Nat.pow_le_pow_right (by decide : 1 ≤ 2) (show binaryExponent n + 1 ≤ j by omega)
    omega
  · have := Nat.pow_le_pow_right (by decide : 1 ≤ 2) (show j + 1 ≤ binaryExponent n by omega)
    omega

theorem isNumber_of_lt (s : Nat) (hs : s < 2 ^ 53) : isNumber s = true := by
  unfold isNumber toNumber
  simp only [hs, if_true, beq_self_eq_true, Bool.true_and, decide_eq_true_eq]
  by_cases h0 : s = 0
  · rw [h0]
    decide
  · obtain ⟨hlo, _⟩ := binaryExponent_spec s h0
    by_contra hk
    have := Nat.pow_le_pow_right (by decide : 1 ≤ 2) (show 53 ≤ binaryExponent s by omega)
    omega

theorem isNumber_mod (s j : Nat) (hnum : isNumber s = true) (hs : 2 ^ (52 + j) ≤ s) :
    s % 2 ^ j = 0 := by
  by_cases hj : j = 0
  · rw [hj]
    simp [Nat.mod_one]
  · have h53 : ¬ s < 2 ^ 53 := by
      have := Nat.pow_le_pow_right (by decide : 1 ≤ 2) (show 53 ≤ 52 + j by omega)
      omega
    have hs0 : s ≠ 0 := by
      have := Nat.pow_pos (n := 52 + j) (by decide : 0 < 2)
      omega
    obtain ⟨_, hhi⟩ := binaryExponent_spec s hs0
    have hk : 52 + j ≤ binaryExponent s := by
      by_contra hk
      have := Nat.pow_le_pow_right (by decide : 1 ≤ 2)
        (show binaryExponent s + 1 ≤ 52 + j by omega)
      omega
    unfold isNumber toNumber at hnum
    simp only [h53, if_false, Bool.and_eq_true, beq_iff_eq] at hnum
    have hdvd : 2 ^ j ∣ 2 ^ (binaryExponent s - 52) :=
      Nat.pow_dvd_pow 2 (by omega)
    have hdvd2 : 2 ^ j ∣ s := by
      rw [← hnum.1]
      exact Dvd.dvd.mul_left hdvd _
    exact Nat.mod_eq_zero_of_dvd hdvd2

theorem floorOfQuotient_exact (s : Nat) (hnum : isNumber s = true)
    (hs : s < 67553994410557496) : floorOfQuotient s 60 = s / 60 := by
  by_cases hsafe : s < 2 ^ 53
  · exact floorOfQuotient_safe s hsafe
  · have h53 : (2 : Nat) ^ 53 = 9007199254740992 := by norm_num
    have hq0 : s / 60 ≠ 0 := by omega
    unfold floorOfQuotient
    rw [if_neg hq0]
    simp only
    by_cases hA : s < 16888498602639360
    · have hk : binaryExponent (s / 60) = 47 :=
        binaryExponent_eq _ 47 (by norm_num; omega) (by norm_num; omega)
      rw [hk]
      norm_num
      unfold roundHalfEven
      simp only
      split
      · omega
      · split
        · omega
        · split <;> omega
    · by_cases hB : s < 33776997205278720
      · have hk : binaryExponent (s / 60) = 48 :=
          binaryExponent_eq _ 48 (by norm_num; omega) (by norm_num; omega)
        have hmod : s % 2 = 0 := by
          have := isNumber_mod s 1 hnum (by norm_num; omega)
          simpa using this
        rw [hk]
        norm_num
        unfold roundHalfEven
        simp only
        split
        · omega
        · split
          · omega
          · split <;> omega
      · by_cases hC : s < 67553994410557440
        · have hk : binaryExponent (s / 60) = 49 :=
            binaryExponent_eq _ 49 (by norm_num; omega) (by norm_num; omega)
          have hmod : s % 4 = 0 := by
            have := isNumber_mod s 2 hnum (by norm_num; omega)
            simpa using this
          rw [hk]
          norm_num
          unfold roundHalfEven
          simp only
          split
          · omega
          · split
            · omega
            · split <;> omega
        · have hk : binaryExponent (s / 60) = 50 :=
            binaryExponent_eq _ 50 (by norm_num; omega) (by norm_num; omega)
          have hmod : s % 8 = 0 := by
            have := isNumber_mod s 3 hnum (by norm_num; omega)
            simpa using this
          rw [hk]
          norm_num
          unfold roundHalfEven
          simp only
          split
          · omega
          · split
            · omega
            · split <;> omega

theorem formatTime_exact (s : Nat) (hnum : isNumber s = true) (hs : s < 67553994410557496) :
    formatTime s =
      padStart (toString (s / 60)) 2 "0" ++ ":" ++ padStart (toString (s % 60)) 2 "0" := by
  have h53 : (2 : Nat) ^ 53 = 9007199254740992 := by norm_num
  unfold formatTime
  simp only
  rw [floorOfQuotient_exact s hnum hs, numberToString_safe (s / 60) (by omega),
    numberToString_safe (s % 60) (by omega)]

/-! ## The formatted time -/

theorem padStart_two_digits (n : Nat) (h : n < 100) :
    padStart (toString n) 2 "0" = String.mk [Nat.digitChar (n / 10), Nat.digitChar (n % 10)] := by
  interval_cases n <;> decide

theorem formatTime_below_100_minutes (s : Nat) (h : s < 6000) :
    formatTime s = String.mk
      [Nat.digitChar (s / 60 / 10), Nat.digitChar (s / 60 % 10), ':',
        Nat.digitChar (s % 60 / 10), Nat.digitChar (s % 60 % 10)] := by
  have hm : s / 60 < 100 := by omega
  have hc : s % 60 < 100 := by omega
  have h53 : (2 : Nat) ^ 53 = 9007199254740992 := by norm_num
  rw [formatTime_safe s (by omega)]
  simp only [padStart_two_digits _ hm, padStart_two_digits _ hc]
  rfl

theorem isMMSS_of_lt (s : Nat) (h : s < 6000) : IsMMSS s (formatTime s) := by
  refine ⟨s / 60 / 10, s / 60 % 10, s % 60 / 10, s % 60 % 10, ?_, ?_, ?_, ?_,
    formatTime_below_100_minutes s h, ?_, ?_⟩ <;> omega

/-- The form `MM:SS` is met exactly below 100 minutes. -/
theorem isMMSS_iff_lt (s : Nat) : IsMMSS s (formatTime s) ↔ s < 6000 := by
  constructor
  · rintro ⟨m1, m0, c1, c0, h1, h0, _, _, _, hm, _⟩
    omega
  · exact isMMSS_of_lt s

/-- C8, as amended: for every whole number of seconds below 6000 (fewer than 100
minutes) `formatTime` has the form `MM:SS`: the two digits of `s / 60`, a
colon, the two digits of `s % 60`, both zero-padded. -/
theorem formatTime_isMMSS (s : Nat) (h : s < 6000) :
    IsMMSS s (formatTime s) ∧
    formatTime s = String.mk
      [Nat.digitChar (s / 60 / 10), Nat.digitChar (s / 60 % 10), ':',
        Nat.digitChar (s % 60 / 10), Nat.digitChar (s % 60 % 10)] :=
  ⟨isMMSS_of_lt s h, formatTime_below_100_minutes s h⟩

/-- Witness of C8 as amended: 24 minutes and 50 seconds. -/
theorem formatTime_isMMSS_witness :
    1490 < 6000 ∧ IsMMSS 1490 (formatTime 1490) ∧ formatTime 1490 = "24:50" :=
  ⟨by decide, (formatTime_isMMSS 1490 (by decide)).1, by decide⟩

/-- C8 as stated fails at 6000 seconds: the minutes take three digits. -/
theorem formatTime_6000_not_MMSS :
    formatTime 6000 = "100:00" ∧ ¬ IsMMSS 6000 (formatTime 6000) := by
  refine ⟨by decide, ?_⟩
  rintro ⟨m1, m0, c1, c0, h1, h0, _, _, _, hm, _⟩
  omega


/-! ## The summary actions and the time selection -/

/-- C9: in a stopped room the summary is rendered; each of its actions issues
exactly the one command `goToIdle`; `Devam Et` is always there and turns
break-selection mode off; `Mola Al` is there exactly when `timerType` is not
`break` and turns break-selection mode on; there is no other action. -/
theorem summary_actions (rs : RoomState) (ui : Hooks) (userName : String)
    (hs : rs.state = "stopped") :
    ∃ title stat buttons, Room true (some rs) ui userName = View.summary title stat buttons ∧
      (∀ b ∈ buttons, b.onClick.issued = [Command.goToIdle]) ∧
      (∀ c, (Room true (some rs) ui userName).offers c ↔ c = Command.goToIdle) ∧
      (∀ b ∈ buttons, b.label = "Devam Et" ∨ b.label = "Mola Al") ∧
      (buttons.filter (fun b => decide (b.label = "Devam Et"))).length = 1 ∧
      (∀ b ∈ buttons, b.label = "Devam Et" → b.onClick.ui = { ui with showBreakMode := false }) ∧
      ((∃ b ∈ buttons, b.label = "Mola Al") ↔ rs.timerType ≠ "break") ∧
      (∀ b ∈ buttons, b.label = "Mola Al" → b.onClick.ui = { ui with showBreakMode := true }) := by
  have hoff := fun c => offers_summary_iff rs ui userName c hs
  by_cases hb : rs.timerType = "break"
  · refine ⟨_, _, _, by simp only [Room, hs, summary]; rfl, ?_⟩
    simp [hb, hoff]
  · refine ⟨_, _, _, by simp only [Room, hs, summary]; rfl, ?_⟩
    simp [hb, hoff]

/-- Witness of C9: the stopped sample room, whose last countdown was a work one. -/
theorem summary_actions_witness :
    (exampleRoom Mode.stopped).state = "stopped" ∧
    ∀ c, (Room true (some (exampleRoom Mode.stopped)) exampleHooks "Ada").offers c ↔
      c = Command.goToIdle :=
  ⟨rfl, by
    obtain ⟨_, _, _, _, _, h, _⟩ :=
      summary_actions (exampleRoom Mode.stopped) exampleHooks "Ada" rfl
    exact h⟩

/-- C10: `handleTimeSelect` issues exactly one command, carrying the selected
duration unchanged: `startBreak` when break-selection mode is on, `startWork`
when it is off. Afterwards break-selection mode is off and no other cell has
changed, so a second selection made right after issues `startWork`. -/
theorem handleTimeSelect_one_command (ui : Hooks) (duration : Int) :
    (handleTimeSelect ui duration).issued =
      [if ui.showBreakMode then Command.startBreak duration else Command.startWork duration] ∧
    (ui.showBreakMode = true → Command.startWork duration ∉ (handleTimeSelect ui duration).issued) ∧
    (ui.showBreakMode = false →
      Command.startBreak duration ∉ (handleTimeSelect ui duration).issued) ∧
    (handleTimeSelect ui duration).ui = { ui with showBreakMode := false } ∧
    (∀ next : Int,
      (handleTimeSelect (handleTimeSelect ui duration).ui next).issued =
        [Command.startWork next] ∧
      ¬ (Command.startBreak duration ∈ (handleTimeSelect ui duration).issued ∧
          Command.startBreak next ∈
            (handleTimeSelect (handleTimeSelect ui duration).ui next).issued)) := by
  cases hb : ui.showBreakMode <;> simp [handleTimeSelect, hb]
  cases ui
  simp_all

/-- Witness of C10: selecting 5 minutes in break-selection mode, then 25 minutes. -/
theorem handleTimeSelect_one_command_witness :
    (handleTimeSelect { exampleHooks with showBreakMode := true } 5).issued =
      [Command.startBreak 5] ∧
    Command.startWork 5 ∉ (handleTimeSelect { exampleHooks with showBreakMode := true } 5).issued ∧
    (handleTimeSelect (handleTimeSelect { exampleHooks with showBreakMode := true } 5).ui 25).issued =
      [Command.startWork 25] :=
  ⟨(handleTimeSelect_one_command { exampleHooks with showBreakMode := true } 5).1,
    (handleTimeSelect_one_command { exampleHooks with showBreakMode := true } 5).2.1 rfl,
    ((handleTimeSelect_one_command { exampleHooks with showBreakMode := true } 5).2.2.2.2 25).1⟩

/-! ## The custom-times lists stay sorted and within their limits -/

theorem sortAscending_append_ascending (limit : Int) (xs : List Int) (m : Int)
    (hxs : AscendingWithin limit xs) (hm : m ∉ xs) (h1 : 1 ≤ m) (h2 : m ≤ limit) :
    AscendingWithin limit (sortAscending (xs ++ [m])) := by
  obtain ⟨hs, hb⟩ := hxs
  have hperm : (sortAscending (xs ++ [m])).Perm (xs ++ [m]) :=
    List.perm_insertionSort _ _
  have hnodup : (xs ++ [m]).Nodup := by
    rw [List.nodup_append]
    refine ⟨hs.nodup, List.nodup_singleton m, ?_⟩
    intro a ha hb'
    rw [List.mem_singleton] at hb'
    exact hm (hb' ▸ ha)
  constructor
  · have hle : (sortAscending (xs ++ [m])).Sorted (fun a b => a ≤ b) :=
      List.sorted_insertionSort _ _
    exact hle.lt_of_le (hperm.nodup_iff.mpr hnodup)
  · intro x hx
    have hx' := hperm.mem_iff.mp hx
    rw [List.mem_append, List.mem_singleton] at hx'
    rcases hx' with hx' | rfl
    · exact hb x hx'
    · exact ⟨h1, h2⟩

theorem filter_ascending (limit : Int) (xs : List Int) (p : Int → Bool)
    (hxs : AscendingWithin limit xs) : AscendingWithin limit (xs.filter p) :=
  ⟨hxs.1.filter p, fun x hx => hxs.2 x (List.mem_of_mem_filter hx)⟩

/-- The two bounds are kept by `handleAddCustomTime`. -/
theorem handleAddCustomTime_keeps (ui : Hooks)
    (hw : AscendingWithin 55 ui.customWorkTimes) (hb : AscendingWithin 30 ui.customBreakTimes) :
    AscendingWithin 55 (handleAddCustomTime ui).ui.customWorkTimes ∧
      AscendingWithin 30 (handleAddCustomTime ui).ui.customBreakTimes := by
  unfold handleAddCustomTime
  by_cases he : trim ui.customTimeInput = ""
  · simp [he, hw, hb]
  · cases hp : parseInt (trim ui.customTimeInput) with
    | none => simp [he, hp, hw, hb]
    | some n =>
      by_cases h0 : n ≤ 0
      · simp [he, hp, h0, hw, hb]
      · cases hmode : ui.showBreakMode
        · by_cases hmax : n > 55
          · simp [he, hp, h0, hmax, hw, hb]
          · by_cases hin : n ∈ ui.customWorkTimes
            · simp [he, hp, h0, hmax, hin, hw, hb]
            · simp [he, hp, h0, hmax, hin, hb]
              exact sortAscending_append_ascending 55 _ n hw hin (by omega) (by omega)
        · by_cases hmax : n > 30
          · simp [he, hp, h0, hmax, hw, hb]
          · by_cases hin : n ∈ ui.customBreakTimes
            · simp [he, hp, h0, hmax, hin, hw, hb]
            · simp [he, hp, h0, hmax, hin, hw]
              exact sortAscending_append_ascending 30 _ n hb hin (by omega) (by omega)

/-- The two bounds are kept by `handleRemoveCustomTime`. -/
theorem handleRemoveCustomTime_keeps (ui : Hooks) (minutes : Int)
    (hw : AscendingWithin 55 ui.customWorkTimes) (hb : AscendingWithin 30 ui.customBreakTimes) :
    AscendingWithin 55 (handleRemoveCustomTime ui minutes).ui.customWorkTimes ∧
      AscendingWithin 30 (handleRemoveCustomTime ui minutes).ui.customBreakTimes := by
  unfold handleRemoveCustomTime
  split
  · exact ⟨hw, filter_ascending 30 _ _ hb⟩
  · exact ⟨filter_ascending 55 _ _ hw, hb⟩

theorem runSteps_keeps (steps : List CustomStep) (ui : Hooks)
    (hw : AscendingWithin 55 ui.customWorkTimes) (hb : AscendingWithin 30 ui.customBreakTimes) :
    AscendingWithin 55 (runSteps ui steps).customWorkTimes ∧
      AscendingWithin 30 (runSteps ui steps).customBreakTimes := by
  induction steps generalizing ui with
  | nil => exact ⟨hw, hb⟩
  | cons step rest ih =>
    have hstep : AscendingWithin 55 (step.run ui).customWorkTimes ∧
        AscendingWithin 30 (step.run ui).customBreakTimes := by
      cases step with
      | typeInput text => exact ⟨hw, hb⟩
      | setBreakMode b => exact ⟨hw, hb⟩
      | add => exact handleAddCustomTime_keeps ui hw hb
      | remove minutes => exact handleRemoveCustomTime_keeps ui minutes hw hb
    exact ih (step.run ui) hstep.1 hstep.2

/-- A call of either handler leaves the list of the other mode as it was. -/
theorem handlers_frame (ui : Hooks) (minutes : Int) :
    (ui.showBreakMode = true →
      (handleAddCustomTime ui).ui.customWorkTimes = ui.customWorkTimes ∧
        (handleRemoveCustomTime ui minutes).ui.customWorkTimes = ui.customWorkTimes) ∧
    (ui.showBreakMode = false →
      (handleAddCustomTime ui).ui.customBreakTimes = ui.customBreakTimes ∧
        (handleRemoveCustomTime ui minutes).ui.customBreakTimes = ui.customBreakTimes) := by
  constructor <;> intro hmode <;> constructor
  · unfold handleAddCustomTime
    simp only [hmode]
    repeat' split
    all_goals first | rfl | simp_all
  · simp [handleRemoveCustomTime, hmode]
  · unfold handleAddCustomTime
    simp only [hmode]
    repeat' split
    all_goals first | rfl | simp_all
  · simp [handleRemoveCustomTime, hmode]


/-- C11: from a state whose two custom-times lists are empty, after every
sequence of input edits, mode switches, `handleAddCustomTime` and
`handleRemoveCustomTime` calls each list is strictly ascending and free of
duplicates, the work list lies within 1..55 and the break list within 1..30;
and a call of either handler leaves the list of the inactive mode unchanged. -/
theorem customTimes_invariant (ui0 : Hooks) (steps : List CustomStep)
    (hw0 : ui0.customWorkTimes = []) (hb0 : ui0.customBreakTimes = []) :
    (runSteps ui0 steps).customWorkTimes.Sorted (fun a b => a < b) ∧
    (runSteps ui0 steps).customWorkTimes.Nodup ∧
    (∀ x ∈ (runSteps ui0 steps).customWorkTimes, 1 ≤ x ∧ x ≤ 55) ∧
    (runSteps ui0 steps).customBreakTimes.Sorted (fun a b => a < b) ∧
    (runSteps ui0 steps).customBreakTimes.Nodup ∧
    (∀ x ∈ (runSteps ui0 steps).customBreakTimes, 1 ≤ x ∧ x ≤ 30) ∧
    (∀ (ui : Hooks) (minutes : Int),
      (ui.showBreakMode = true →
        (handleAddCustomTime ui).ui.customWorkTimes = ui.customWorkTimes ∧
          (handleRemoveCustomTime ui minutes).ui.customWorkTimes = ui.customWorkTimes) ∧
      (ui.showBreakMode = false →
        (handleAddCustomTime ui).ui.customBreakTimes = ui.customBreakTimes ∧
          (handleRemoveCustomTime ui minutes).ui.customBreakTimes = ui.customBreakTimes)) := by
  have hw : AscendingWithin 55 ui0.customWorkTimes := by
    rw [hw0]; exact ⟨List.sorted_nil, by simp⟩
  have hb : AscendingWithin 30 ui0.customBreakTimes := by
    rw [hb0]; exact ⟨List.sorted_nil, by simp⟩
  obtain ⟨⟨hws, hwb⟩, ⟨hbs, hbb⟩⟩ := runSteps_keeps steps ui0 hw hb
  exact ⟨hws, hws.nodup, hwb, hbs, hbs.nodup, hbb, handlers_frame⟩

/-- Witness of C11: from the mount state, after the sample sequence the work
list is `[5]` and the break list is `[10]`. -/
theorem customTimes_invariant_witness :
    (runSteps exampleHooks exampleSteps).customWorkTimes = [5] ∧
    (runSteps exampleHooks exampleSteps).customBreakTimes = [10] ∧
    (runSteps exampleHooks exampleSteps).customWorkTimes.Sorted (fun a b => a < b) ∧
    (∀ x ∈ (runSteps exampleHooks exampleSteps).customBreakTimes, 1 ≤ x ∧ x ≤ 30) ∧
    (handleAddCustomTime
      { exampleHooks with showBreakMode := true, customTimeInput := "7" }).ui.customWorkTimes =
      [] :=
  ⟨by decide, by decide,
    (customTimes_invariant exampleHooks exampleSteps rfl rfl).1,
    (customTimes_invariant exampleHooks exampleSteps rfl rfl).2.2.2.2.2.1,
    ((customTimes_invariant exampleHooks exampleSteps rfl rfl).2.2.2.2.2.2
      { exampleHooks with showBreakMode := true, customTimeInput := "7" } 0).1 rfl |>.1⟩

/-! ## Reading `formatTime` back -/

theorem digitChar_decimal (k : Nat) (h : k < 10) :
    isDecimalDigit (Nat.digitChar k) = true ∧ decimalDigit (Nat.digitChar k) = k ∧
      Nat.digitChar k ≠ ':' := by
  interval_cases k <;> decide

theorem isDecimalDigit_ne_colon (c : Char) (h : isDecimalDigit c = true) : c ≠ ':' := by
  rintro rfl
  revert h
  decide

theorem toDigitsCore_isDecimalDigit (fuel n : Nat) (ds : List Char)
    (hds : ∀ c ∈ ds, isDecimalDigit c = true) :
    ∀ c ∈ Nat.toDigitsCore 10 fuel n ds, isDecimalDigit c = true := by
  induction fuel generalizing n ds with
  | zero => simpa [Nat.toDigitsCore] using hds
  | succ fuel ih =>
    have hd : isDecimalDigit (Nat.digitChar (n % 10)) = true :=
      (digitChar_decimal (n % 10) (Nat.mod_lt _ (by decide))).1
    have hcons : ∀ c ∈ Nat.digitChar (n % 10) :: ds, isDecimalDigit c = true := by
      intro c hc
      rcases List.mem_cons.mp hc with rfl | hc
      · exact hd
      · exact hds c hc
    unfold Nat.toDigitsCore
    simp only
    split
    · exact hcons
    · exact ih (n / 10) _ hcons

theorem toDigitsCore_value (fuel n : Nat) (ds : List Char) (h : n < fuel) :
    (Nat.toDigitsCore 10 fuel n ds).foldl (fun acc c => acc * 10 + decimalDigit c) 0 =
      ds.foldl (fun acc c => acc * 10 + decimalDigit c) n := by
  induction fuel generalizing n ds with
  | zero => omega
  | succ fuel ih =>
    have hd : decimalDigit (Nat.digitChar (n % 10)) = n % 10 :=
      (digitChar_decimal (n % 10) (Nat.mod_lt _ (by decide))).2.1
    unfold Nat.toDigitsCore
    simp only
    split
    · rename_i h0
      have hn : n % 10 = n := by omega
      simp only [List.foldl_cons, hd, Nat.zero_mul, Nat.zero_add]
      rw [hn]
    · rename_i h0
      rw [ih (n / 10) _ (by omega)]
      simp only [List.foldl_cons, hd]
      congr 1
      omega

theorem toString_data (n : Nat) : (toString n).data = Nat.toDigits 10 n := rfl

theorem toString_isDecimalDigit (n : Nat) :
    ∀ c ∈ (toString n).data, isDecimalDigit c = true := by
  rw [toString_data]
  exact toDigitsCore_isDecimalDigit _ _ [] (by simp)

theorem toString_decimalValue (n : Nat) : decimalValue (toString n).data = n := by
  rw [toString_data]
  unfold decimalValue Nat.toDigits
  rw [toDigitsCore_value _ _ [] (Nat.lt_succ_self n)]
  rfl


theorem padStart_zero_data (s : String) :
    ∃ zs : List Char, (∀ c ∈ zs, c = '0') ∧ (padStart s 2 "0").data = zs ++ s.data ∧
      2 ≤ (padStart s 2 "0").data.length := by
  unfold padStart
  by_cases h : 2 ≤ s.length
  · refine ⟨[], by simp, by simp [h], ?_⟩
    simp [h]
  · have hlen : s.data.length < 2 := by
      have : s.length = s.data.length := rfl
      omega
    refine ⟨((List.replicate (2 - s.length) "0".data).flatten.take (2 - s.length)), ?_, ?_, ?_⟩
    · intro c hc
      have hc2 := List.mem_of_mem_take hc
      rw [List.mem_flatten] at hc2
      obtain ⟨l, hl, hcl⟩ := hc2
      rw [List.eq_of_mem_replicate hl] at hcl
      simpa using hcl
    · simp [h]
    · have hs : s.length = s.data.length := rfl
      have hfl : ((List.replicate (2 - s.length) "0".data).flatten).length = 2 - s.length := by
        simp [List.length_flatten]
      simp only [h, false_or, show ¬ "0".data = [] by decide, if_false, List.length_append,
        List.length_take, hfl, Nat.min_self]
      omega

theorem decimalValue_zeros_append (zs l : List Char) (hz : ∀ c ∈ zs, c = '0') :
    decimalValue (zs ++ l) = decimalValue l := by
  induction zs with
  | nil => rfl
  | cons z rest ih =>
    have hz0 : z = '0' := hz z (by simp)
    subst hz0
    have := ih (fun c hc => hz c (List.mem_cons_of_mem _ hc))
    unfold decimalValue at this ⊢
    simpa [decimalDigit] using this

theorem padStart_toString (n : Nat) :
    (∀ c ∈ (padStart (toString n) 2 "0").data, isDecimalDigit c = true) ∧
      decimalValue (padStart (toString n) 2 "0").data = n ∧
      2 ≤ (padStart (toString n) 2 "0").data.length := by
  obtain ⟨zs, hz, hdata, hlen⟩ := padStart_zero_data (toString n)
  refine ⟨?_, ?_, hlen⟩
  · intro c hc
    rw [hdata, List.mem_append] at hc
    rcases hc with hc | hc
    · rw [hz c hc]; decide
    · exact toString_isDecimalDigit n c hc
  · rw [hdata, decimalValue_zeros_append _ _ hz, toString_decimalValue]

theorem takeWhile_append_stop (p : Char → Bool) (l r : List Char) (c : Char)
    (hl : ∀ x ∈ l, p x = true) (hc : p c = false) :
    (l ++ c :: r).takeWhile p = l ∧ (l ++ c :: r).dropWhile p = c :: r := by
  induction l with
  | nil => simp [List.takeWhile_cons, List.dropWhile_cons, hc]
  | cons a rest ih =>
    have ha : p a = true := hl a (by simp)
    have ih2 := ih (fun x hx => hl x (List.mem_cons_of_mem _ hx))
    simp [List.takeWhile_cons, List.dropWhile_cons, ha, ih2.1, ih2.2]

theorem formatTime_data (s : Nat) (hnum : isNumber s = true) (hs : s < 67553994410557496) :
    (formatTime s).data =
      (padStart (toString (s / 60)) 2 "0").data ++
        ':' :: (padStart (toString (s % 60)) 2 "0").data := by
  rw [formatTime_exact s hnum hs]
  simp [String.data_append]

theorem formatTime_fields (s : Nat) (hnum : isNumber s = true) (hs : s < 67553994410557496) :
    minutesField (formatTime s) = (padStart (toString (s / 60)) 2 "0").data ∧
      secondsField (formatTime s) = (padStart (toString (s % 60)) 2 "0").data := by
  have hsplit := takeWhile_append_stop (fun c => decide (c ≠ ':'))
    (padStart (toString (s / 60)) 2 "0").data (padStart (toString (s % 60)) 2 "0").data ':'
    (fun x hx => by
      simpa using isDecimalDigit_ne_colon x ((padStart_toString (s / 60)).1 x hx))
    (by decide)
  unfold minutesField secondsField
  rw [formatTime_data s hnum hs, hsplit.1, hsplit.2]
  exact ⟨rfl, rfl⟩

theorem decodeTime_formatTime (s : Nat) (hnum : isNumber s = true)
    (hs : s < 67553994410557496) : decodeTime (formatTime s) = s := by
  unfold decodeTime
  rw [(formatTime_fields s hnum hs).1, (formatTime_fields s hnum hs).2, (padStart_toString _).2.1,
    (padStart_toString _).2.1]
  omega

theorem room_timerText (rs : RoomState) (ui : Hooks) (userName : String)
    (h : timerActive (some rs) = true) :
    (Room true (some rs) ui userName).timerText = some (formatTime rs.timerRemaining) := by
  have hs : rs.state ≠ "stopped" := by
    intro hs
    simp [timerActive, hs] at h
  simp [Room, hs, h, View.timerText]

/-- C12, as amended: `formatTime` can be read back for every whole Number of
seconds below 67553994410557496, which covers every whole number below
`2 ^ 53`: the text splits at its colon into a minutes field of at least two
decimal digits and a seconds field of exactly two, the seconds field denotes
`s % 60`, which is below 60, the minutes field denotes `s / 60`, and 60 times
the minutes plus the seconds is `s`. So `formatTime` is injective on these
Numbers, and two countdowns whose remaining seconds differ within this range
never show the same text. -/
theorem formatTime_decodes (s : Nat) (hnum : isNumber s = true) (hs : s < 67553994410557496) :
    (formatTime s).data =
      minutesField (formatTime s) ++ ':' :: secondsField (formatTime s) ∧
    (∀ c ∈ minutesField (formatTime s), isDecimalDigit c = true) ∧
    2 ≤ (minutesField (formatTime s)).length ∧
    (∀ c ∈ secondsField (formatTime s), isDecimalDigit c = true) ∧
    (secondsField (formatTime s)).length = 2 ∧
    decimalValue (secondsField (formatTime s)) < 60 ∧
    decimalValue (minutesField (formatTime s)) = s / 60 ∧
    decimalValue (secondsField (formatTime s)) = s % 60 ∧
    60 * decimalValue (minutesField (formatTime s)) + decimalValue (secondsField (formatTime s)) =
      s ∧
    (∀ t, isNumber t = true → t < 67553994410557496 → formatTime t = formatTime s → t = s) ∧
    (∀ t, t < 2 ^ 53 → isNumber t = true ∧ t < 67553994410557496) ∧
    (∀ (rs1 rs2 : RoomState) (ui : Hooks) (userName : String),
      timerActive (some rs1) = true → timerActive (some rs2) = true →
      rs2.timerRemaining = s → isNumber rs1.timerRemaining = true →
      rs1.timerRemaining < 67553994410557496 → rs1.timerRemaining ≠ s →
      (Room true (some rs1) ui userName).timerText ≠
        (Room true (some rs2) ui userName).timerText) := by
  obtain ⟨hm, hc⟩ := formatTime_fields s hnum hs
  obtain ⟨hmd, hmv, hml⟩ := padStart_toString (s / 60)
  obtain ⟨hcd, hcv, _⟩ := padStart_toString (s % 60)
  have hinj : ∀ t, isNumber t = true → t < 67553994410557496 →
      formatTime t = formatTime s → t = s := by
    intro t htn ht heq
    rw [← decodeTime_formatTime t htn ht, heq, decodeTime_formatTime s hnum hs]
  have hsafe : ∀ t, t < 2 ^ 53 → isNumber t = true ∧ t < 67553994410557496 := by
    intro t ht
    have h53 : (2 : Nat) ^ 53 = 9007199254740992 := by norm_num
    exact ⟨isNumber_of_lt t ht, by omega⟩
  have hlt : s % 60 < 60 := Nat.mod_lt _ (by decide)
  refine ⟨?_, ?_, ?_, ?_, ?_, ?_, ?_, ?_, ?_, hinj, hsafe, ?_⟩
  · rw [hm, hc, formatTime_data s hnum hs]
  · rw [hm]; exact hmd
  · rw [hm]; exact hml
  · rw [hc]; exact hcd
  · rw [hc, padStart_two_digits _ (by omega)]
    rfl
  · rw [hc, hcv]; exact hlt
  · rw [hm, hmv]
  · rw [hc, hcv]
  · rw [hm, hc, hmv, hcv]
    omega
  · intro rs1 rs2 ui userName h1 h2 hr2 hn1 hb1 hr1 heq
    rw [room_timerText rs1 ui userName h1, room_timerText rs2 ui userName h2, hr2] at heq
    exact hr1 (hinj _ hn1 hb1 (Option.some.inj heq))

/-- Witness of C12 as amended: 100 minutes and 5 seconds read back from a
three-digit minutes field; so does `2 ^ 53 + 2` seconds; the text of 1490 s
is not the text of 1489 s. -/
theorem formatTime_decodes_witness :
    isNumber 6005 = true ∧ 6005 < 67553994410557496 ∧
    formatTime 6005 = "100:05" ∧
    decimalValue (minutesField (formatTime 6005)) = 6005 / 60 ∧
    decimalValue (secondsField (formatTime 6005)) = 6005 % 60 ∧
    isNumber 9007199254740994 = true ∧
    60 * decimalValue (minutesField (formatTime 9007199254740994)) +
      decimalValue (secondsField (formatTime 9007199254740994)) = 9007199254740994 ∧
    (Room true (some { exampleRoom Mode.working with timerRemaining := 1489 }) exampleHooks
        "Ada").timerText ≠
      (Room true (some (exampleRoom Mode.working)) exampleHooks "Ada").timerText :=
  ⟨by decide, by decide, by decide,
    (formatTime_decodes 6005 (by decide) (by decide)).2.2.2.2.2.2.1,
    (formatTime_decodes 6005 (by decide) (by decide)).2.2.2.2.2.2.2.1,
    by decide,
    (formatTime_decodes 9007199254740994 (by decide) (by decide)).2.2.2.2.2.2.2.2.1,
    (formatTime_decodes 1490 (by decide) (by decide)).2.2.2.2.2.2.2.2.2.2.2
      { exampleRoom Mode.working with timerRemaining := 1489 } (exampleRoom Mode.working)
      exampleHooks "Ada" (by decide) (by decide) rfl (by decide) (by decide) (by decide)⟩

set_option maxRecDepth 100000 in
/-- C12 as stated fails on large whole Numbers. At 67553994410557496 seconds,
the first such Number, the quotient by 60 rounds up to the next whole number
and the text reads back as 60 seconds more. At `6 * 10 ^ 22` seconds the
minutes are `10 ^ 21`, which `toString` prints in exponent notation, so the
minutes field is not a run of digits. -/
theorem formatTime_large_not_decoded :
    isNumber 67553994410557496 = true ∧
    formatTime 67553994410557496 = "1125899906842625:56" ∧
    60 * decimalValue (minutesField (formatTime 67553994410557496)) +
      decimalValue (secondsField (formatTime 67553994410557496)) = 67553994410557556 ∧
    isNumber (6 * 10 ^ 22) = true ∧
    formatTime (6 * 10 ^ 22) = "1e+21:00" ∧
    ¬ (∀ c ∈ minutesField (formatTime (6 * 10 ^ 22)), isDecimalDigit c = true) ∧
    ¬ (∀ s : Nat, isNumber s = true →
        60 * decimalValue (minutesField (formatTime s)) +
          decimalValue (secondsField (formatTime s)) = s) := by
  have h1 : formatTime 67553994410557496 = "1125899906842625:56" := by decide
  have h2 : formatTime (6 * 10 ^ 22) = "1e+21:00" := by decide
  have hn : isNumber 67553994410557496 = true := by decide
  refine ⟨hn, h1, ?_, by decide, h2, ?_, ?_⟩
  · rw [h1]
    decide
  · rw [h2]
    decide
  · intro h
    have h3 := h 67553994410557496 hn
    rw [h1] at h3
    revert h3
    decide

end FriendsPomodoro
